import Mathlib

/-!
Verification development for `internal/command/upload.go`.

A shallow embedding of `RunUpload` (the upload orchestration shell of
cloudpan189-go) together with the Go standard-library path functions it
calls, followed by theorems about queue admission, option normalisation,
ledger lifecycle, failure reporting and remote save-path derivation.

Go `string` values are modelled as `List Char`.  Every byte the code inspects
(`/`, `.`, `\`) is ASCII, so working on characters instead of bytes does not
change which branch is taken.
-/

namespace Upload

/-- Go `string`, as the list of its characters. -/
abbrev GoString := List Char

/-! ## Go standard library: `strings.TrimPrefix`, `path.Clean`, `filepath.Dir` -/

/-- Go `strings.HasPrefix`: `len(s) >= len(prefix) && s[0:len(prefix)] == prefix`. -/
def HasPrefix (s pre : GoString) : Bool :=
  decide (pre.length ≤ s.length) && decide (s.take pre.length = pre)

/-- Go `strings.TrimPrefix`: `s[len(prefix):]` when `HasPrefix(s, prefix)`, else `s`. -/
def TrimPrefix (s pre : GoString) : GoString :=
  if HasPrefix s pre then s.drop pre.length else s

/-- Loop state of `path.Clean`: the bytes written to the output buffer so far
(`out.w` is the length of `out`) and the index `dotdot` below which a `..`
element must not backtrack. -/
structure CleanState where
  out : GoString
  dotdot : Nat
deriving DecidableEq, Repr

/-- Backtracking loop of `path.Clean`, started after the first `out.w--`:
`for out.w > dotdot && out.index(out.w) != '/' { out.w-- }`; returns the final `out.w`. -/
def backtrack (out : GoString) (dotdot : Nat) : Nat → Nat
  | 0 => 0
  | w + 1 =>
    if dotdot < w + 1 ∧ out[w + 1]? ≠ some '/' then backtrack out dotdot w else w + 1

/-- The `..` case of `path.Clean`: backtrack when possible, else (unrooted)
append a `..` element and move `dotdot` past it. -/
def dotdotStep (rooted : Bool) (st : CleanState) : CleanState :=
  if st.dotdot < st.out.length then
    { st with out := st.out.take (backtrack st.out st.dotdot (st.out.length - 1)) }
  else if !rooted then
    let out1 := if 0 < st.out.length then st.out ++ ['/'] else st.out
    let out2 := out1 ++ ['.', '.']
    { out := out2, dotdot := out2.length }
  else st

/-- Copy loop of `path.Clean`:
`for ; r < n && path[r] != '/'; r++ { out.append(path[r]) }`;
returns the new output and the unread rest of the path. -/
def copyElement : GoString → GoString → GoString × GoString
  | [], out => (out, [])
  | c :: rest, out => if c ≠ '/' then copyElement rest (out ++ [c]) else (out, c :: rest)

/-- Main loop `for r < n { switch ... }` of `path.Clean` over the unread part
`path[r:]`.  Every iteration consumes at least one byte, so a fuel equal to
the number of unread bytes is never exhausted (see `cleanLoop_fuel`). -/
def cleanLoop (rooted : Bool) : Nat → GoString → CleanState → CleanState
  | 0, _, st => st
  | _ + 1, [], st => st
  | fuel + 1, c :: rest, st =>
    if c = '/' then
      cleanLoop rooted fuel rest st
    else if c = '.' ∧ (rest = [] ∨ rest.head? = some '/') then
      cleanLoop rooted fuel rest st
    else if c = '.' ∧ rest.head? = some '.' ∧
        (rest.tail = [] ∨ rest.tail.head? = some '/') then
      cleanLoop rooted fuel rest.tail (dotdotStep rooted st)
    else
      let out1 :=
        if (rooted ∧ st.out.length ≠ 1) ∨ (¬ rooted ∧ st.out.length ≠ 0) then st.out ++ ['/']
        else st.out
      let r := copyElement (c :: rest) out1
      cleanLoop rooted fuel r.2 { st with out := r.1 }

/-- Go `path.Clean` (on Unix `filepath.Clean` is the same algorithm). -/
def Clean (path : GoString) : GoString :=
  match path with
  | [] => ['.']
  | c :: rest =>
    let rooted : Bool := decide (c = '/')
    let st0 : CleanState := if rooted then ⟨['/'], 1⟩ else ⟨[], 0⟩
    let unread := if rooted then rest else c :: rest
    let st := cleanLoop rooted unread.length unread st0
    if st.out.length = 0 then ['.'] else st.out

/-- Index scan of Unix `filepath.Dir`, `i := len(path) - 1` then
`for i >= 0 && !os.IsPathSeparator(path[i]) { i-- }`.  The argument and the
result are `i + 1`, so that the scan stays in `Nat`. -/
def dirScan (path : GoString) : Nat → Nat
  | 0 => 0
  | i + 1 => if path[i]? ≠ some '/' then dirScan path i else i + 1

/-- Go `filepath.Dir` on Unix (empty volume name): `Clean(path[:i+1])`. -/
def unixDir (path : GoString) : GoString :=
  Clean (path.take (dirScan path path.length))

/-! ## Data model of `upload.go` -/

/-- A reference to a heap object (`*T` in Go); two references are the same
object exactly when they are equal. -/
abbrev Ref := Nat

/-- Constant `DefaultUploadMaxAllParallel`. -/
def DefaultUploadMaxAllParallel : Int := 1

/-- Constant `DefaultUploadMaxRetry`. -/
def DefaultUploadMaxRetry : Int := 3

/-- Modelled from the spec: the constant `cloudpan.PathSeparator` of the
cloudpan189-api package (not part of this repository's sources), the `/` that
separates the elements of a remote path. -/
def PathSeparator : GoString := ['/']

/-- Struct `UploadOptions`; the defaults are Go's zero values, so `{}` is
`UploadOptions{}`. -/
structure UploadOptions where
  AllParallel : Int := 0
  Parallel : Int := 0
  MaxRetry : Int := 0
  NoRapidUpload : Bool := false
  NoSplitFile : Bool := false
  ShowProgress : Bool := false
  IsOverwrite : Bool := false
deriving DecidableEq, Repr

/-- Result of `localfile.NewLocalFileEntity(path)`: the entity of a local path. -/
structure LocalFileEntity where
  Path : GoString
deriving DecidableEq, Repr

/-- Struct `panupload.UploadTaskUnit`, with the fields set by `RunUpload`. -/
structure UploadTaskUnit where
  LocalFileChecksum : LocalFileEntity
  SavePath : GoString
  PanClient : Ref
  UploadingDatabase : Ref
  FolderCreateMutex : Ref
  Parallel : Int
  NoRapidUpload : Bool
  NoSplitFile : Bool
  UploadStatistic : Ref
  ShowProgress : Bool
  IsOverwrite : Bool
deriving DecidableEq, Repr

/-- Modelled from the spec: `taskframework.TaskInfo`, the handle returned by
`Append`, carrying the id assigned at append time and the unit's retry budget. -/
structure TaskInfo where
  id : Nat
  maxRetry : Int
deriving DecidableEq, Repr

/-- Modelled from the spec: `TaskInfo.Id()`, the task id as text. -/
def TaskInfo.Id (info : TaskInfo) : GoString := Nat.toDigits 10 info.id

/-- Modelled from the spec: `taskframework.TaskInfoItem`, a queued unit
together with its `TaskInfo`. -/
structure TaskInfoItem where
  Info : TaskInfo
  Unit : UploadTaskUnit
deriving DecidableEq, Repr

/-- Modelled from the spec: `taskframework.TaskExecutor` (section 4.1).
`incr` counts the units ever appended and is the next task id, `deque` is the
queue, `failedDeque` holds the terminal failures once `Execute` has returned. -/
structure TaskExecutor where
  IsFailedDeque : Bool
  parallel : Int := 0
  incr : Nat := 0
  deque : List TaskInfoItem := []
  failedDeque : List TaskInfoItem := []
deriving DecidableEq, Repr

/-- Modelled from the spec: `SetParallel(n)` fixes the concurrency bound. -/
def TaskExecutor.SetParallel (te : TaskExecutor) (n : Int) : TaskExecutor :=
  { te with parallel := n }

/-- Modelled from the spec: `Append(unit, maxRetry)` enqueues the unit with its
own retry budget and returns a `TaskInfo` with the next id. -/
def TaskExecutor.Append (te : TaskExecutor) (unit : UploadTaskUnit) (maxRetry : Int) :
    TaskInfo × TaskExecutor :=
  let info : TaskInfo := { id := te.incr, maxRetry := maxRetry }
  (info, { te with incr := te.incr + 1, deque := te.deque ++ [{ Info := info, Unit := unit }] })

/-- Modelled from the spec: `Count()` returns the number of units ever appended. -/
def TaskExecutor.Count (te : TaskExecutor) : Nat := te.incr

/-- Modelled from the spec: `Execute()` drains the queue; which units end as
terminal failures, and in which order, is decided by the run `outcome`. -/
def TaskExecutor.Execute (te : TaskExecutor)
    (outcome : Int → List TaskInfoItem → List TaskInfoItem) : TaskExecutor :=
  { te with deque := [], failedDeque := outcome te.parallel te.deque }

/-- Modelled from the spec: `FailedDeque()` yields the terminal failures (FIFO). -/
def TaskExecutor.FailedDeque (te : TaskExecutor) : List TaskInfoItem := te.failedDeque

/-- Modelled from the spec: `Shift()` of the failed deque removes and returns
the head, and returns nil (`none`) when the deque is empty. -/
def Shift (d : List TaskInfoItem) : Option TaskInfoItem × List TaskInfoItem :=
  match d with
  | [] => (none, [])
  | e :: rest => (some e, rest)

/-- The console lines `RunUpload` prints with `fmt.Printf`. -/
inductive Message where
  | savePathWarning (savePath err : GoString)
  | emptyLocalPaths
  | openDatabaseError (err : GoString)
  | walkWarning (err : GoString)
  | queued (id file : GoString)
  | noFiles
  | newline
  | summary
  | failedHeader
deriving DecidableEq, Repr

/-- One observable step of a run: a call to a collaborator (with the result
where `RunUpload` branches on it) or a printed line. -/
inductive Event where
  | Printf (m : Message)
  | FileInfoByPath (savePath : GoString)
  | NewUploadingDatabase
  | Close (db : Ref)
  | NewTaskExecutor (executor : Ref)
  | NewUploadStatistic (statistic : Ref)
  | NewMutex (mutex : Ref)
  | SetParallel (executor : Ref) (n : Int)
  | StartTimer (statistic : Ref)
  | WalkDir (localPath : GoString)
  | Append (executor : Ref) (unit : UploadTaskUnit) (maxRetry : Int)
  | Count (executor : Ref) (result : Nat)
  | Execute (executor : Ref)
  | FailedDeque (executor : Ref)
  | NewTable
  | TableAppend (row : List GoString)
  | Render
deriving DecidableEq, Repr

/-- Everything `RunUpload` reads from outside its arguments: the configuration,
the platform, the active user and the collaborators' results. -/
structure Env where
  /-- Field `config.Config.MaxUploadParallel`. -/
  MaxUploadParallel : Int
  /-- Constant `os.PathSeparator` of the platform. -/
  osPathSeparator : Char
  /-- Function `filepath.Dir` of the platform. -/
  Dir : GoString → GoString
  /-- Function `cmdutil.ConvertToUnixPathSeparator`. -/
  ConvertToUnixPathSeparator : GoString → GoString
  /-- Method `activeUser.PathJoin`. -/
  PathJoin : GoString → GoString
  /-- Method `activeUser.PanClient()`. -/
  PanClient : Ref
  /-- The error of `FileInfoByPath(savePath)`, `none` for nil. -/
  FileInfoByPath : GoString → Option GoString
  /-- Result of `panupload.NewUploadingDatabase()`. -/
  NewUploadingDatabase : Except GoString Ref
  /-- Function `cmdutil.WalkDir(dirPth, suffix)`. -/
  WalkDir : GoString → GoString → Except GoString (List GoString)
  /-- First free heap address, used for the objects the run allocates. -/
  heap : Ref
  /-- Terminal failures, in finalisation order, of executing a queue with a
  given concurrency bound. -/
  outcome : Int → List TaskInfoItem → List TaskInfoItem

/-! ## `RunUpload` -/

/-- Lines 43-57 of `RunUpload`: a nil `opt` becomes `&UploadOptions{}`, then
the three `if` statements of "检测opt" run in order. -/
def checkOpt (env : Env) (opt : Option UploadOptions) : UploadOptions :=
  let opt : UploadOptions := match opt with
    | none => {}
    | some o => o
  let opt := if opt.AllParallel ≤ 0 then { opt with AllParallel := env.MaxUploadParallel } else opt
  let opt := if opt.Parallel ≤ 0 then { opt with Parallel := 1 } else opt
  let opt := if opt.MaxRetry < 0 then { opt with MaxRetry := DefaultUploadMaxRetry } else opt
  opt

/-- The objects shared by all units of one run. -/
structure Shared where
  uploadDatabase : Ref
  executor : Ref
  statistic : Ref
  folderCreateMutex : Ref
deriving DecidableEq, Repr

/-- Lines 79-89: the objects one run creates, next to the ledger it opened:
the executor, the statistic and the folder-creation mutex, each a fresh heap
object. -/
def newShared (env : Env) (uploadDatabase : Ref) : Shared :=
  { uploadDatabase := uploadDatabase, executor := env.heap,
    statistic := env.heap + 1, folderCreateMutex := env.heap + 2 }

/-- Lines 104-109, the branch on the platform: a path is passed through
`cmdutil.ConvertToUnixPathSeparator` when `os.PathSeparator == '\\'` and is
left as it is otherwise. -/
def unixPath (env : Env) (path : GoString) : GoString :=
  if env.osPathSeparator = '\\' then env.ConvertToUnixPathSeparator path else path

/-- Lines 104-109: `walkedFiles[k3]` after the branch on the platform (the
slice element is overwritten in place on Windows). -/
def walkedFile (env : Env) (w : GoString) : GoString :=
  unixPath env w

/-- Lines 102-114: `localPathDir`, the directory of the local path, replaced
by the empty string when it is `.`. -/
def localPathDir (env : Env) (localPath : GoString) : GoString :=
  let d := unixPath env (env.Dir localPath)
  if d = ['.'] then [] else d

/-- Line 116: `subSavePath = strings.TrimPrefix(walkedFiles[k3], localPathDir)`. -/
def subSavePath (env : Env) (localPath w : GoString) : GoString :=
  TrimPrefix (walkedFile env w) (localPathDir env localPath)

/-- Lines 118-130: the `UploadTaskUnit` built for walked file `w` of `localPath`;
`savePath` is the variable after line 59 and `opt` the checked options. -/
def newUploadTaskUnit (env : Env) (savePath : GoString) (opt : UploadOptions) (sh : Shared)
    (localPath w : GoString) : UploadTaskUnit :=
  { LocalFileChecksum := { Path := walkedFile env w }
    SavePath := Clean (savePath ++ PathSeparator ++ subSavePath env localPath w)
    PanClient := env.PanClient
    UploadingDatabase := sh.uploadDatabase
    FolderCreateMutex := sh.folderCreateMutex
    Parallel := opt.Parallel
    NoRapidUpload := opt.NoRapidUpload
    NoSplitFile := opt.NoSplitFile
    UploadStatistic := sh.statistic
    ShowProgress := opt.ShowProgress
    IsOverwrite := opt.IsOverwrite }

/-- Lines 101-132: the inner loop `for k3 := range walkedFiles`. -/
def appendWalked (env : Env) (savePath : GoString) (opt : UploadOptions) (sh : Shared)
    (localPath : GoString) : List GoString → TaskExecutor → TaskExecutor × List Event
  | [], te => (te, [])
  | w :: ws, te =>
    let unit := newUploadTaskUnit env savePath opt sh localPath w
    let r := te.Append unit opt.MaxRetry
    let next := appendWalked env savePath opt sh localPath ws r.2
    (next.1, Event.Append sh.executor unit opt.MaxRetry ::
      Event.Printf (Message.queued r.1.Id (walkedFile env w)) :: next.2)

/-- Lines 94-133: the outer loop `for k := range localPaths`; a path whose
traversal fails prints a warning and the loop continues. -/
def appendLocalPaths (env : Env) (savePath : GoString) (opt : UploadOptions) (sh : Shared) :
    List GoString → TaskExecutor → TaskExecutor × List Event
  | [], te => (te, [])
  | p :: ps, te =>
    match env.WalkDir p [] with
    | Except.error err =>
      let next := appendLocalPaths env savePath opt sh ps te
      (next.1, Event.WalkDir p :: Event.Printf (Message.walkWarning err) :: next.2)
    | Except.ok walkedFiles =>
      let inner := appendWalked env savePath opt sh p walkedFiles te
      let next := appendLocalPaths env savePath opt sh ps inner.1
      (next.1, Event.WalkDir p :: (inner.2 ++ next.2))

/-- Line 154: the table row of a failed item, its task id and local file path. -/
def failedRow (item : TaskInfoItem) : List GoString :=
  [item.Info.Id, item.Unit.LocalFileChecksum.Path]

/-- Lines 152-155: `for e := failedList.Shift(); e != nil; e = failedList.Shift()`,
appending one row per shifted item; returns the rows appended to the table and
the deque as the loop leaves it. -/
def reportLoop (failedList : List TaskInfoItem) (tb : List (List GoString)) :
    List (List GoString) × List TaskInfoItem :=
  match _h : Shift failedList with
  | (none, rest) => (tb, rest)
  | (some e, rest) => reportLoop rest (tb ++ [failedRow e])
termination_by failedList.length
decreasing_by
  cases failedList with
  | nil => simp [Shift] at _h
  | cons a l =>
    simp only [Shift, Prod.mk.injEq, Option.some.injEq] at _h
    rw [← _h.2]
    simp

/-- Lines 147-157: the failure report.  Nothing is printed for an empty deque. -/
def reportFailed (executor : Ref) (failedList : List TaskInfoItem) : List Event :=
  Event.FailedDeque executor ::
    (if failedList.length ≠ 0 then
      [Event.Printf Message.failedHeader, Event.NewTable] ++
        (reportLoop failedList []).1.map Event.TableAppend ++ [Event.Render]
    else [])

/-- Lines 79-157 of `RunUpload`, the part that runs under `defer Close`. -/
def runWithDatabase (env : Env) (localPaths : List GoString) (savePath : GoString)
    (opt : UploadOptions) (uploadDatabase : Ref) : List Event :=
  let sh : Shared := newShared env uploadDatabase
  let executor : TaskExecutor := { IsFailedDeque := true }
  let executor := executor.SetParallel opt.AllParallel
  let setup := [Event.NewTaskExecutor sh.executor, Event.NewUploadStatistic sh.statistic,
    Event.NewMutex sh.folderCreateMutex, Event.SetParallel sh.executor opt.AllParallel,
    Event.StartTimer sh.statistic]
  let queued := appendLocalPaths env savePath opt sh localPaths executor
  let executor := queued.1
  let counted := setup ++ queued.2 ++ [Event.Count sh.executor executor.Count]
  if executor.Count = 0 then
    counted ++ [Event.Printf Message.noFiles]
  else
    let executor := executor.Execute env.outcome
    counted ++ [Event.Execute sh.executor, Event.Printf Message.newline,
      Event.Printf Message.summary] ++ reportFailed sh.executor executor.FailedDeque

/-- Lines 60-63: the lookup of the remote save path, with the warning printed
when it fails. -/
def probeSavePath (env : Env) (savePath : GoString) : List Event :=
  Event.FileInfoByPath savePath ::
    (match env.FileInfoByPath savePath with
      | some err1 => [Event.Printf (Message.savePathWarning savePath err1)]
      | none => [])

/-- Function `RunUpload(localPaths, savePath, opt)`: the trace of the run.
`opt = none` is a nil pointer.  The deferred `Close` is the last event of
every path that leaves the function after line 77. -/
def RunUpload (env : Env) (localPaths : List GoString) (savePath : GoString)
    (opt : Option UploadOptions) : List Event :=
  let opt := checkOpt env opt
  let savePath := env.PathJoin savePath
  let probe := probeSavePath env savePath
  if localPaths.length = 0 then
    probe ++ [Event.Printf Message.emptyLocalPaths]
  else
    match env.NewUploadingDatabase with
    | Except.error err =>
      probe ++ [Event.NewUploadingDatabase, Event.Printf (Message.openDatabaseError err)]
    | Except.ok uploadDatabase =>
      probe ++ [Event.NewUploadingDatabase] ++
        runWithDatabase env localPaths savePath opt uploadDatabase ++ [Event.Close uploadDatabase]


/-! ## Observations on a trace and concrete environments -/

/-- The `(unit, maxRetry)` arguments of an `Append` call. -/
def asAppend : Event → Option (UploadTaskUnit × Int)
  | Event.Append _ unit maxRetry => some (unit, maxRetry)
  | _ => none

/-- The `(unit, maxRetry)` arguments of the `Append` calls of a trace, in order. -/
def appended (trace : List Event) : List (UploadTaskUnit × Int) :=
  trace.filterMap asAppend

/-- The argument `n` of a `SetParallel` call. -/
def asSetParallel : Event → Option Int
  | Event.SetParallel _ n => some n
  | _ => none

/-- The arguments `n` of the `SetParallel` calls of a trace, in order. -/
def setParallelArgs (trace : List Event) : List Int :=
  trace.filterMap asSetParallel

/-- The result of a `Count()` call. -/
def asCount : Event → Option Nat
  | Event.Count _ result => some result
  | _ => none

/-- The results of the `Count()` calls of a trace, in order. -/
def countResults (trace : List Event) : List Nat :=
  trace.filterMap asCount

/-- The row of a `tb.Append` call. -/
def asTableAppend : Event → Option (List GoString)
  | Event.TableAppend row => some row
  | _ => none

/-- The rows appended to the failure table in a trace, in order. -/
def tableRows (trace : List Event) : List (List GoString) :=
  trace.filterMap asTableAppend

/-- The events of the enqueueing loops: traversals, their printed lines and `Append`s. -/
def queueEvent : Event → Bool
  | Event.WalkDir _ => true
  | Event.Printf (Message.walkWarning _) => true
  | Event.Printf (Message.queued _ _) => true
  | Event.Append _ _ _ => true
  | _ => false

/-- The events of the failure report. -/
def reportEvent : Event → Bool
  | Event.FailedDeque _ => true
  | Event.Printf Message.failedHeader => true
  | Event.NewTable => true
  | Event.TableAppend _ => true
  | Event.Render => true
  | _ => false

/-- The events of the remote save-path lookup. -/
def probeEvent : Event → Bool
  | Event.FileInfoByPath _ => true
  | Event.Printf (Message.savePathWarning _ _) => true
  | _ => false

/-- The remaining events, which a run emits at fixed places: opening and
closing the ledger, creating the shared objects, `SetParallel`, `StartTimer`,
`Count`, `Execute` and the lines printed around them. -/
def skeletonEvent (e : Event) : Bool :=
  !(probeEvent e || queueEvent e || reportEvent e)

/-- The calls of `executor.Execute()`. -/
def executeEvent : Event → Bool
  | Event.Execute _ => true
  | _ => false

/-- The events that create or open one of the objects shared by the units. -/
def creationEvent : Event → Bool
  | Event.NewUploadingDatabase => true
  | Event.NewTaskExecutor _ => true
  | Event.NewUploadStatistic _ => true
  | Event.NewMutex _ => true
  | _ => false

/-- The walked-file lists of the local paths whose traversal succeeded, in
input order. -/
def walkedLists (env : Env) (localPaths : List GoString) : List (List GoString) :=
  localPaths.filterMap fun p =>
    match env.WalkDir p [] with
    | Except.ok walkedFiles => some walkedFiles
    | Except.error _ => none

/-- The `(local path, walked file)` pairs of a run, in traversal order. -/
def walkedPairs (env : Env) (localPaths : List GoString) : List (GoString × GoString) :=
  match localPaths with
  | [] => []
  | p :: ps =>
    (match env.WalkDir p [] with
      | Except.ok walkedFiles => walkedFiles.map fun w => (p, w)
      | Except.error _ => []) ++ walkedPairs env ps

/-- The executor as `RunUpload` has it at line 136, after the enqueueing loops. -/
def queuedExecutor (env : Env) (localPaths : List GoString) (savePath : GoString)
    (opt : Option UploadOptions) (uploadDatabase : Ref) : TaskExecutor :=
  (appendLocalPaths env (env.PathJoin savePath) (checkOpt env opt)
    (newShared env uploadDatabase) localPaths
    (TaskExecutor.SetParallel { IsFailedDeque := true } (checkOpt env opt).AllParallel)).1

/-- Modelled from the spec: the path-separator normalisation
`cmdutil.ConvertToUnixPathSeparator` (its source is not among the files at
hand), which turns every `\` into `/`. -/
def ConvertToUnixPathSeparator (p : GoString) : GoString :=
  p.map fun c => if c = '\\' then '/' else c

/-- A Unix environment: `/` as separator, `unixDir` as `filepath.Dir`, an
identity `PathJoin`, a remote path that exists, and the given run outcome. -/
def unixEnv (maxUploadParallel : Int) (db : Except GoString Ref)
    (walk : GoString → Except GoString (List GoString))
    (outcome : Int → List TaskInfoItem → List TaskInfoItem) : Env :=
  { MaxUploadParallel := maxUploadParallel
    osPathSeparator := '/'
    Dir := unixDir
    ConvertToUnixPathSeparator := ConvertToUnixPathSeparator
    PathJoin := fun p => p
    PanClient := 1
    FileInfoByPath := fun _ => none
    NewUploadingDatabase := db
    WalkDir := fun p _ => walk p
    heap := 10
    outcome := outcome }

/-- A traversal that finds exactly the path it is given (a plain file). -/
def walkFile (p : GoString) : Except GoString (List GoString) := Except.ok [p]

/-- A run outcome in which every unit succeeds. -/
def allSucceed : Int → List TaskInfoItem → List TaskInfoItem := fun _ _ => []

/-- A run outcome in which every unit ends as a terminal failure, in queue order. -/
def allFail : Int → List TaskInfoItem → List TaskInfoItem := fun _ queue => queue

/-- A traversal of a directory holding the files `x` and `y`, which fails on
the path `missing`. -/
def walkTwo (p : GoString) : Except GoString (List GoString) :=
  if p = "missing".toList then Except.error "no such file".toList
  else Except.ok [p ++ "/x".toList, p ++ "/y".toList]

/-- The path elements of a path: the pieces between its `/` separators (empty
pieces included). -/
def pathElements : GoString → List GoString
  | [] => [[]]
  | c :: cs =>
    if c = '/' then [] :: pathElements cs
    else match pathElements cs with
      | [] => [[c]]
      | e :: es => (c :: e) :: es

/-- The main loop of `path.Clean` run on the whole unread part, with the fuel
that part needs. -/
def cleanRun (rooted : Bool) (path : GoString) (st : CleanState) : CleanState :=
  cleanLoop rooted path.length path st

/-! ## Shape of the trace -/

theorem filterMap_queue {α : Type} (f : Event → Option α)
    (hf : ∀ e, queueEvent e = true → f e = none) (es : List Event)
    (h : ∀ e ∈ es, queueEvent e = true) : es.filterMap f = [] := by
  rw [List.filterMap_eq_nil_iff]
  exact fun e he => hf e (h e he)

theorem filterMap_report {α : Type} (f : Event → Option α)
    (hf : ∀ e, reportEvent e = true → f e = none) (es : List Event)
    (h : ∀ e ∈ es, reportEvent e = true) : es.filterMap f = [] := by
  rw [List.filterMap_eq_nil_iff]
  exact fun e he => hf e (h e he)

theorem appendWalked_incr (env : Env) (savePath : GoString) (opt : UploadOptions) (sh : Shared)
    (p : GoString) (ws : List GoString) (te : TaskExecutor) :
    (appendWalked env savePath opt sh p ws te).1.incr = te.incr + ws.length := by
  induction ws generalizing te with
  | nil => simp [appendWalked]
  | cons w ws ih =>
    simp only [appendWalked, ih, TaskExecutor.Append, List.length_cons]
    omega

theorem appendWalked_appended (env : Env) (savePath : GoString) (opt : UploadOptions)
    (sh : Shared) (p : GoString) (ws : List GoString) (te : TaskExecutor) :
    appended (appendWalked env savePath opt sh p ws te).2 =
      ws.map fun w => (newUploadTaskUnit env savePath opt sh p w, opt.MaxRetry) := by
  induction ws generalizing te with
  | nil => simp [appendWalked, appended]
  | cons w ws ih =>
    have ih := ih (te.Append (newUploadTaskUnit env savePath opt sh p w) opt.MaxRetry).2
    simp only [appended] at ih ⊢
    simp [appendWalked, asAppend, ih]

theorem appendLocalPaths_incr (env : Env) (savePath : GoString) (opt : UploadOptions)
    (sh : Shared) (ps : List GoString) (te : TaskExecutor) :
    (appendLocalPaths env savePath opt sh ps te).1.incr =
      te.incr + (walkedPairs env ps).length := by
  induction ps generalizing te with
  | nil => simp [appendLocalPaths, walkedPairs]
  | cons p ps ih =>
    simp only [appendLocalPaths, walkedPairs]
    cases hw : env.WalkDir p [] with
    | error err => simp [ih]
    | ok ws => simp [ih, appendWalked_incr]; omega

theorem appendLocalPaths_appended (env : Env) (savePath : GoString) (opt : UploadOptions)
    (sh : Shared) (ps : List GoString) (te : TaskExecutor) :
    appended (appendLocalPaths env savePath opt sh ps te).2 =
      (walkedPairs env ps).map fun pw =>
        (newUploadTaskUnit env savePath opt sh pw.1 pw.2, opt.MaxRetry) := by
  induction ps generalizing te with
  | nil => simp [appendLocalPaths, walkedPairs, appended]
  | cons p ps ih =>
    simp only [appendLocalPaths, walkedPairs]
    cases hw : env.WalkDir p [] with
    | error err =>
      have ih := ih te
      simp only [appended] at ih ⊢
      simp [asAppend, ih]
    | ok ws =>
      have ih := ih (appendWalked env savePath opt sh p ws te).1
      have hw := appendWalked_appended env savePath opt sh p ws te
      simp only [appended] at ih hw ⊢
      simp [asAppend, ih, hw]

theorem appendWalked_queueEvent (env : Env) (savePath : GoString) (opt : UploadOptions)
    (sh : Shared) (p : GoString) (ws : List GoString) (te : TaskExecutor) :
    ∀ e ∈ (appendWalked env savePath opt sh p ws te).2, queueEvent e = true := by
  induction ws generalizing te with
  | nil => simp [appendWalked]
  | cons w ws ih =>
    intro e he
    simp only [appendWalked, List.mem_cons] at he
    rcases he with rfl | rfl | he
    · rfl
    · rfl
    · exact ih _ e he

theorem appendLocalPaths_queueEvent (env : Env) (savePath : GoString) (opt : UploadOptions)
    (sh : Shared) (ps : List GoString) (te : TaskExecutor) :
    ∀ e ∈ (appendLocalPaths env savePath opt sh ps te).2, queueEvent e = true := by
  induction ps generalizing te with
  | nil => simp [appendLocalPaths]
  | cons p ps ih =>
    intro e he
    simp only [appendLocalPaths] at he
    cases hw : env.WalkDir p [] with
    | error err =>
      rw [hw] at he
      simp only [List.mem_cons] at he
      rcases he with rfl | rfl | he
      · rfl
      · rfl
      · exact ih _ e he
    | ok ws =>
      rw [hw] at he
      simp only [List.mem_cons, List.mem_append] at he
      rcases he with rfl | he | he
      · rfl
      · exact appendWalked_queueEvent _ _ _ _ _ _ _ e he
      · exact ih _ e he

/-- Every `Append` of the enqueueing loops goes to the run's executor. -/
theorem appendLocalPaths_executor (env : Env) (savePath : GoString) (opt : UploadOptions)
    (sh : Shared) (ps : List GoString) (te : TaskExecutor) (x : Ref) (unit : UploadTaskUnit)
    (maxRetry : Int) (h : Event.Append x unit maxRetry ∈ (appendLocalPaths env savePath opt sh ps te).2) :
    x = sh.executor := by
  have hw : ∀ (p : GoString) (ws : List GoString) (te : TaskExecutor),
      Event.Append x unit maxRetry ∈ (appendWalked env savePath opt sh p ws te).2 →
        x = sh.executor := by
    intro p ws
    induction ws with
    | nil => intro te h; simp [appendWalked] at h
    | cons w ws ih =>
      intro te h
      simp only [appendWalked, List.mem_cons, Event.Append.injEq, reduceCtorEq, false_or] at h
      rcases h with h | h
      · exact h.1
      · exact ih _ h
  induction ps generalizing te with
  | nil => simp [appendLocalPaths] at h
  | cons p ps ih =>
    simp only [appendLocalPaths] at h
    cases hwd : env.WalkDir p [] with
    | error err =>
      rw [hwd] at h
      simp only [List.mem_cons, reduceCtorEq, false_or] at h
      exact ih _ h
    | ok ws =>
      rw [hwd] at h
      simp only [List.mem_cons, reduceCtorEq, false_or, List.mem_append] at h
      rcases h with h | h
      · exact hw _ _ _ h
      · exact ih _ h

/-- The reporting loop appends one row per item, in order, and empties the deque. -/
theorem reportLoop_eq (failedList : List TaskInfoItem) (tb : List (List GoString)) :
    reportLoop failedList tb = (tb ++ failedList.map failedRow, []) := by
  induction failedList generalizing tb with
  | nil =>
    rw [reportLoop]
    simp [Shift]
  | cons e rest ih =>
    rw [reportLoop]
    simp [Shift, ih]

theorem reportFailed_eq (executor : Ref) (failedList : List TaskInfoItem) :
    reportFailed executor failedList =
      Event.FailedDeque executor ::
        (if failedList = [] then []
         else [Event.Printf Message.failedHeader, Event.NewTable] ++
           (failedList.map failedRow).map Event.TableAppend ++ [Event.Render]) := by
  unfold reportFailed
  rw [reportLoop_eq]
  cases failedList <;> simp

theorem reportFailed_reportEvent (executor : Ref) (failedList : List TaskInfoItem) :
    ∀ e ∈ reportFailed executor failedList, reportEvent e = true := by
  rw [reportFailed_eq]
  split_ifs
  · simp [reportEvent]
  · simp [reportEvent, or_imp, forall_and]

theorem tableRows_reportFailed (executor : Ref) (failedList : List TaskInfoItem) :
    tableRows (reportFailed executor failedList) = failedList.map failedRow := by
  rw [reportFailed_eq]
  unfold tableRows
  split_ifs with h
  · simp [h, asTableAppend]
  · simp only [asTableAppend, List.filterMap_append, List.filterMap_map, Function.comp_def,
      List.filterMap_cons, List.filterMap_nil, List.append_nil, List.cons_append, List.nil_append]
    clear h
    induction failedList with
    | nil => rfl
    | cons a l ih => simp [ih]

/-- The trace of the part of `RunUpload` that runs under the deferred `Close`. -/
theorem runWithDatabase_eq (env : Env) (localPaths : List GoString) (savePath : GoString)
    (opt : Option UploadOptions) (db : Ref) :
    runWithDatabase env localPaths (env.PathJoin savePath) (checkOpt env opt) db =
      [Event.NewTaskExecutor env.heap, Event.NewUploadStatistic (env.heap + 1),
        Event.NewMutex (env.heap + 2), Event.SetParallel env.heap (checkOpt env opt).AllParallel,
        Event.StartTimer (env.heap + 1)] ++
      (appendLocalPaths env (env.PathJoin savePath) (checkOpt env opt) (newShared env db)
        localPaths
        (TaskExecutor.SetParallel { IsFailedDeque := true } (checkOpt env opt).AllParallel)).2 ++
      [Event.Count env.heap (walkedPairs env localPaths).length] ++
      (if (walkedPairs env localPaths).length = 0 then [Event.Printf Message.noFiles]
       else [Event.Execute env.heap, Event.Printf Message.newline,
          Event.Printf Message.summary] ++
        reportFailed env.heap
          ((queuedExecutor env localPaths savePath opt db).Execute env.outcome).FailedDeque) := by
  have hc : (appendLocalPaths env (env.PathJoin savePath) (checkOpt env opt) (newShared env db)
      localPaths
      (TaskExecutor.SetParallel { IsFailedDeque := true } (checkOpt env opt).AllParallel)).1.Count =
      (walkedPairs env localPaths).length := by
    unfold TaskExecutor.Count
    rw [appendLocalPaths_incr]
    simp [TaskExecutor.SetParallel]
  unfold runWithDatabase
  simp only []
  rw [hc]
  split_ifs
  · rfl
  · simp only [List.append_assoc]
    rfl

theorem probeSavePath_probeEvent (env : Env) (savePath : GoString) :
    ∀ e ∈ probeSavePath env savePath, probeEvent e = true := by
  unfold probeSavePath
  cases env.FileInfoByPath savePath <;> simp [probeEvent]

theorem filterMap_probe {α : Type} (f : Event → Option α)
    (hf : ∀ e, probeEvent e = true → f e = none) (env : Env) (savePath : GoString) :
    (probeSavePath env savePath).filterMap f = [] := by
  rw [List.filterMap_eq_nil_iff]
  exact fun e he => hf e (probeSavePath_probeEvent env savePath e he)

/-- The run with no local path: the lookup and one printed line. -/
theorem RunUpload_nil (env : Env) (savePath : GoString) (opt : Option UploadOptions) :
    RunUpload env [] savePath opt =
      probeSavePath env (env.PathJoin savePath) ++ [Event.Printf Message.emptyLocalPaths] := by
  simp [RunUpload]

/-- The run whose ledger does not open. -/
theorem RunUpload_error (env : Env) (p : GoString) (ps : List GoString) (savePath : GoString)
    (opt : Option UploadOptions) (err : GoString)
    (hdb : env.NewUploadingDatabase = Except.error err) :
    RunUpload env (p :: ps) savePath opt =
      probeSavePath env (env.PathJoin savePath) ++
        [Event.NewUploadingDatabase, Event.Printf (Message.openDatabaseError err)] := by
  simp [RunUpload, hdb]

/-- The run whose ledger opens: the deferred `Close` ends the trace. -/
theorem RunUpload_ok (env : Env) (p : GoString) (ps : List GoString) (savePath : GoString)
    (opt : Option UploadOptions) (db : Ref) (hdb : env.NewUploadingDatabase = Except.ok db) :
    RunUpload env (p :: ps) savePath opt =
      probeSavePath env (env.PathJoin savePath) ++ [Event.NewUploadingDatabase] ++
        runWithDatabase env (p :: ps) (env.PathJoin savePath) (checkOpt env opt) db ++
        [Event.Close db] := by
  simp [RunUpload, hdb]

theorem appended_runWithDatabase (env : Env) (localPaths : List GoString) (savePath : GoString)
    (opt : Option UploadOptions) (db : Ref) :
    appended (runWithDatabase env localPaths (env.PathJoin savePath) (checkOpt env opt) db) =
      (walkedPairs env localPaths).map fun pw =>
        (newUploadTaskUnit env (env.PathJoin savePath) (checkOpt env opt) (newShared env db)
          pw.1 pw.2, (checkOpt env opt).MaxRetry) := by
  have hq := appendLocalPaths_appended env (env.PathJoin savePath) (checkOpt env opt)
    (newShared env db) localPaths
    (TaskExecutor.SetParallel { IsFailedDeque := true } (checkOpt env opt).AllParallel)
  rw [runWithDatabase_eq]
  unfold appended at hq ⊢
  simp only [List.filterMap_append, hq]
  rw [apply_ite (List.filterMap asAppend), List.filterMap_append,
    filterMap_report asAppend (by intro e; cases e <;> simp [reportEvent, asAppend]) _
      (reportFailed_reportEvent _ _)]
  simp [asAppend]

theorem setParallelArgs_runWithDatabase (env : Env) (localPaths : List GoString)
    (savePath : GoString) (opt : Option UploadOptions) (db : Ref) :
    setParallelArgs (runWithDatabase env localPaths (env.PathJoin savePath) (checkOpt env opt) db) =
      [(checkOpt env opt).AllParallel] := by
  rw [runWithDatabase_eq]
  unfold setParallelArgs
  simp only [List.filterMap_append]
  rw [apply_ite (List.filterMap asSetParallel), List.filterMap_append,
    filterMap_report asSetParallel (by intro e; cases e <;> simp [reportEvent, asSetParallel]) _
      (reportFailed_reportEvent _ _),
    filterMap_queue asSetParallel (by intro e; cases e <;> simp [queueEvent, asSetParallel]) _
      (appendLocalPaths_queueEvent _ _ _ _ _ _)]
  simp [asSetParallel]

/-- The `Append` calls of a run: none when the ledger does not open, else one
per walked pair, built by `newUploadTaskUnit` from the checked options. -/
theorem appended_RunUpload (env : Env) (localPaths : List GoString) (savePath : GoString)
    (opt : Option UploadOptions) :
    appended (RunUpload env localPaths savePath opt) =
      match env.NewUploadingDatabase with
      | Except.ok db =>
        (walkedPairs env localPaths).map fun pw =>
          (newUploadTaskUnit env (env.PathJoin savePath) (checkOpt env opt) (newShared env db)
            pw.1 pw.2, (checkOpt env opt).MaxRetry)
      | Except.error _ => [] := by
  have hprobe : appended (probeSavePath env (env.PathJoin savePath)) = [] :=
    filterMap_probe asAppend (by intro e; cases e <;> simp [probeEvent, asAppend]) _ _
  cases localPaths with
  | nil =>
    rw [RunUpload_nil]
    unfold appended at hprobe ⊢
    simp only [List.filterMap_append, hprobe, walkedPairs, List.map_nil]
    cases env.NewUploadingDatabase <;> rfl
  | cons p ps =>
    cases hdb : env.NewUploadingDatabase with
    | error err =>
      rw [RunUpload_error env p ps savePath opt err hdb]
      unfold appended at hprobe ⊢
      simp [List.filterMap_append, hprobe, asAppend]
    | ok db =>
      have hr := appended_runWithDatabase env (p :: ps) savePath opt db
      rw [RunUpload_ok env p ps savePath opt db hdb]
      unfold appended at hprobe hr ⊢
      simp [List.filterMap_append, hprobe, hr, asAppend]

/-- The `SetParallel` calls of a run: exactly one, with the checked
`AllParallel`, when there is a local path and the ledger opens. -/
theorem setParallelArgs_RunUpload (env : Env) (localPaths : List GoString) (savePath : GoString)
    (opt : Option UploadOptions) :
    setParallelArgs (RunUpload env localPaths savePath opt) =
      match localPaths, env.NewUploadingDatabase with
      | _ :: _, Except.ok _ => [(checkOpt env opt).AllParallel]
      | _, _ => [] := by
  have hprobe : setParallelArgs (probeSavePath env (env.PathJoin savePath)) = [] :=
    filterMap_probe asSetParallel (by intro e; cases e <;> simp [probeEvent, asSetParallel]) _ _
  cases localPaths with
  | nil =>
    rw [RunUpload_nil]
    unfold setParallelArgs at hprobe ⊢
    simp [List.filterMap_append, hprobe, asSetParallel]
  | cons p ps =>
    cases hdb : env.NewUploadingDatabase with
    | error err =>
      rw [RunUpload_error env p ps savePath opt err hdb]
      unfold setParallelArgs at hprobe ⊢
      simp [List.filterMap_append, hprobe, asSetParallel]
    | ok db =>
      have hr := setParallelArgs_runWithDatabase env (p :: ps) savePath opt db
      rw [RunUpload_ok env p ps savePath opt db hdb]
      unfold setParallelArgs at hprobe hr ⊢
      simp [List.filterMap_append, hprobe, hr, asSetParallel]

theorem countResults_RunUpload (env : Env) (p : GoString) (ps : List GoString)
    (savePath : GoString) (opt : Option UploadOptions) (db : Ref)
    (hdb : env.NewUploadingDatabase = Except.ok db) :
    countResults (RunUpload env (p :: ps) savePath opt) =
      [(walkedPairs env (p :: ps)).length] := by
  rw [RunUpload_ok env p ps savePath opt db hdb, runWithDatabase_eq]
  unfold countResults
  simp only [List.filterMap_append]
  rw [apply_ite (List.filterMap asCount), List.filterMap_append,
    filterMap_report asCount (by intro e; cases e <;> simp [reportEvent, asCount]) _
      (reportFailed_reportEvent _ _),
    filterMap_queue asCount (by intro e; cases e <;> simp [queueEvent, asCount]) _
      (appendLocalPaths_queueEvent _ _ _ _ _ _),
    filterMap_probe asCount (by intro e; cases e <;> simp [probeEvent, asCount])]
  simp [asCount]

theorem walkedPairs_append (env : Env) (a b : List GoString) :
    walkedPairs env (a ++ b) = walkedPairs env a ++ walkedPairs env b := by
  induction a with
  | nil => simp [walkedPairs]
  | cons p ps ih => simp [walkedPairs, ih]

theorem walkedPairs_snd (env : Env) (localPaths : List GoString) :
    (walkedPairs env localPaths).map Prod.snd = (walkedLists env localPaths).flatten := by
  induction localPaths with
  | nil => simp [walkedPairs, walkedLists]
  | cons p ps ih =>
    unfold walkedLists at ih ⊢
    simp only [walkedPairs, List.map_append, ih, List.filterMap_cons]
    cases env.WalkDir p [] <;> simp [Function.comp_def]

/-- An `Append` event of a run goes to the run's executor and carries a unit
built by `newUploadTaskUnit` for one of the walked pairs. -/
theorem mem_Append_RunUpload (env : Env) (localPaths : List GoString) (savePath : GoString)
    (opt : Option UploadOptions) (x : Ref) (unit : UploadTaskUnit) (maxRetry : Int)
    (h : Event.Append x unit maxRetry ∈ RunUpload env localPaths savePath opt) :
    ∃ db, env.NewUploadingDatabase = Except.ok db ∧ x = env.heap ∧
      maxRetry = (checkOpt env opt).MaxRetry ∧
      ∃ pw ∈ walkedPairs env localPaths,
        unit = newUploadTaskUnit env (env.PathJoin savePath) (checkOpt env opt)
          (newShared env db) pw.1 pw.2 := by
  have happ : (unit, maxRetry) ∈ appended (RunUpload env localPaths savePath opt) := by
    unfold appended
    rw [List.mem_filterMap]
    exact ⟨_, h, rfl⟩
  rw [appended_RunUpload] at happ
  cases hdb : env.NewUploadingDatabase with
  | error err => simp [hdb] at happ
  | ok db =>
    simp only [hdb, List.mem_map, Prod.mk.injEq] at happ
    obtain ⟨pw, hpw, hu, hm⟩ := happ
    refine ⟨db, rfl, ?_, hm.symm, pw, hpw, hu.symm⟩
    cases localPaths with
    | nil => simp [walkedPairs] at hpw
    | cons p ps =>
      rw [RunUpload_ok env p ps savePath opt db hdb, runWithDatabase_eq] at h
      rcases List.mem_append.1 h with h | h
      · rcases List.mem_append.1 h with h | h
        · rcases List.mem_append.1 h with h | h
          · have := probeSavePath_probeEvent _ _ _ h
            simp [probeEvent] at this
          · simp at h
        · rcases List.mem_append.1 h with h | h
          · rcases List.mem_append.1 h with h | h
            · rcases List.mem_append.1 h with h | h
              · simp at h
              · exact appendLocalPaths_executor _ _ _ _ _ _ _ _ _ h
            · simp at h
          · split_ifs at h
            · simp at h
            · rcases List.mem_append.1 h with h | h
              · simp at h
              · have := reportFailed_reportEvent _ _ _ h
                simp [reportEvent] at this
      · simp at h

theorem filter_eq_nil_of_forall (f g : Event → Bool) (hfg : ∀ e, g e = true → f e = false)
    (es : List Event) (h : ∀ e ∈ es, g e = true) : es.filter f = [] := by
  rw [List.filter_eq_nil_iff]
  intro e he
  simp [hfg e (h e he)]

theorem filter_eq_self_of_forall (f g : Event → Bool) (hfg : ∀ e, g e = true → f e = true)
    (es : List Event) (h : ∀ e ∈ es, g e = true) : es.filter f = es := by
  rw [List.filter_eq_self]
  exact fun e he => hfg e (h e he)

/-- The fixed events of the part of a run under the deferred `Close`. -/
theorem skeleton_runWithDatabase (env : Env) (localPaths : List GoString) (savePath : GoString)
    (opt : Option UploadOptions) (db : Ref) :
    (runWithDatabase env localPaths (env.PathJoin savePath) (checkOpt env opt) db).filter
        skeletonEvent =
      [Event.NewTaskExecutor env.heap, Event.NewUploadStatistic (env.heap + 1),
        Event.NewMutex (env.heap + 2), Event.SetParallel env.heap (checkOpt env opt).AllParallel,
        Event.StartTimer (env.heap + 1),
        Event.Count env.heap (walkedPairs env localPaths).length] ++
      (if (walkedPairs env localPaths).length = 0 then [Event.Printf Message.noFiles]
       else [Event.Execute env.heap, Event.Printf Message.newline,
          Event.Printf Message.summary]) := by
  rw [runWithDatabase_eq]
  simp only [List.filter_append]
  rw [apply_ite (List.filter skeletonEvent), List.filter_append,
    filter_eq_nil_of_forall skeletonEvent reportEvent
      (by intro e h; simp [skeletonEvent, h]) _ (reportFailed_reportEvent _ _),
    filter_eq_nil_of_forall skeletonEvent queueEvent
      (by intro e h; simp [skeletonEvent, h]) _ (appendLocalPaths_queueEvent _ _ _ _ _ _)]
  split_ifs <;> simp [skeletonEvent, probeEvent, queueEvent, reportEvent]

/-- The report events of the part of a run under the deferred `Close`. -/
theorem report_runWithDatabase (env : Env) (localPaths : List GoString) (savePath : GoString)
    (opt : Option UploadOptions) (db : Ref) :
    (runWithDatabase env localPaths (env.PathJoin savePath) (checkOpt env opt) db).filter
        reportEvent =
      if (walkedPairs env localPaths).length = 0 then []
      else reportFailed env.heap
        ((queuedExecutor env localPaths savePath opt db).Execute env.outcome).FailedDeque := by
  rw [runWithDatabase_eq]
  simp only [List.filter_append]
  rw [apply_ite (List.filter reportEvent), List.filter_append,
    filter_eq_self_of_forall reportEvent reportEvent (fun _ h => h) _
      (reportFailed_reportEvent _ _),
    filter_eq_nil_of_forall reportEvent queueEvent
      (by
        intro e h
        cases e with
        | Printf m => cases m <;> simp_all [queueEvent, reportEvent]
        | _ => simp_all [queueEvent, reportEvent]) _
      (appendLocalPaths_queueEvent _ _ _ _ _ _)]
  split_ifs <;> simp [reportEvent]

theorem probe_filter_skeleton (env : Env) (savePath : GoString) :
    (probeSavePath env savePath).filter skeletonEvent = [] :=
  filter_eq_nil_of_forall skeletonEvent probeEvent
    (by intro e h; simp [skeletonEvent, h]) _ (probeSavePath_probeEvent _ _)

theorem probe_filter_report (env : Env) (savePath : GoString) :
    (probeSavePath env savePath).filter reportEvent = [] :=
  filter_eq_nil_of_forall reportEvent probeEvent
    (by
      intro e h
      cases e with
      | Printf m => cases m <;> simp_all [probeEvent, reportEvent]
      | _ => simp_all [probeEvent, reportEvent]) _
    (probeSavePath_probeEvent _ _)

theorem mem_of_skeleton (e : Event) (he : skeletonEvent e = true) (es : List Event) :
    e ∈ es ↔ e ∈ es.filter skeletonEvent := by
  simp [List.mem_filter, he]

/-- The fixed events of a run, by the path the run takes. -/
theorem skeleton_RunUpload (env : Env) (localPaths : List GoString) (savePath : GoString)
    (opt : Option UploadOptions) :
    (RunUpload env localPaths savePath opt).filter skeletonEvent =
      match localPaths, env.NewUploadingDatabase with
      | [], _ => [Event.Printf Message.emptyLocalPaths]
      | _ :: _, Except.error err =>
        [Event.NewUploadingDatabase, Event.Printf (Message.openDatabaseError err)]
      | _ :: _, Except.ok db =>
        [Event.NewUploadingDatabase, Event.NewTaskExecutor env.heap,
          Event.NewUploadStatistic (env.heap + 1), Event.NewMutex (env.heap + 2),
          Event.SetParallel env.heap (checkOpt env opt).AllParallel,
          Event.StartTimer (env.heap + 1),
          Event.Count env.heap (walkedPairs env localPaths).length] ++
        (if (walkedPairs env localPaths).length = 0 then [Event.Printf Message.noFiles]
         else [Event.Execute env.heap, Event.Printf Message.newline,
            Event.Printf Message.summary]) ++ [Event.Close db] := by
  cases localPaths with
  | nil =>
    rw [RunUpload_nil, List.filter_append, probe_filter_skeleton]
    simp [skeletonEvent, probeEvent, queueEvent, reportEvent]
  | cons p ps =>
    cases hdb : env.NewUploadingDatabase with
    | error err =>
      rw [RunUpload_error env p ps savePath opt err hdb, List.filter_append,
        probe_filter_skeleton]
      simp [skeletonEvent, probeEvent, queueEvent, reportEvent]
    | ok db =>
      rw [RunUpload_ok env p ps savePath opt db hdb]
      simp only [List.filter_append, probe_filter_skeleton, skeleton_runWithDatabase]
      simp [skeletonEvent, probeEvent, queueEvent, reportEvent]

/-- The report events of a run, by the path the run takes. -/
theorem report_RunUpload (env : Env) (localPaths : List GoString) (savePath : GoString)
    (opt : Option UploadOptions) :
    (RunUpload env localPaths savePath opt).filter reportEvent =
      match localPaths, env.NewUploadingDatabase with
      | _ :: _, Except.ok db =>
        if (walkedPairs env localPaths).length = 0 then []
        else reportFailed env.heap
          ((queuedExecutor env localPaths savePath opt db).Execute env.outcome).FailedDeque
      | _, _ => [] := by
  cases localPaths with
  | nil =>
    rw [RunUpload_nil, List.filter_append, probe_filter_report]
    simp [reportEvent]
  | cons p ps =>
    cases hdb : env.NewUploadingDatabase with
    | error err =>
      rw [RunUpload_error env p ps savePath opt err hdb, List.filter_append,
        probe_filter_report]
      simp [reportEvent]
    | ok db =>
      rw [RunUpload_ok env p ps savePath opt db hdb]
      simp only [List.filter_append, probe_filter_report, report_runWithDatabase]
      simp [reportEvent]

theorem filter_execute_skeleton (es : List Event) :
    es.filter executeEvent = (es.filter skeletonEvent).filter executeEvent := by
  rw [List.filter_filter]
  congr 1
  funext e
  cases e <;> simp [executeEvent, skeletonEvent, probeEvent, queueEvent, reportEvent]

theorem tableRows_filter_report (es : List Event) :
    tableRows es = tableRows (es.filter reportEvent) := by
  unfold tableRows
  rw [List.filterMap_filter]
  congr 1
  funext e
  cases e <;> simp [asTableAppend, reportEvent]

theorem hasPrefix_iff (s pre : GoString) : HasPrefix s pre = true ↔ pre <+: s := by
  unfold HasPrefix
  rw [List.prefix_iff_eq_take]
  simp only [Bool.and_eq_true, decide_eq_true_eq]
  constructor
  · exact fun h => h.2.symm
  · intro h
    refine ⟨?_, h.symm⟩
    have := congrArg List.length h
    rw [List.length_take] at this
    omega

/-! ## Queue admission (lines 94-133) -/

/-- C1: for every non-empty list of local paths and a ledger that opens, the
units appended to the executor are, in order, the walked files of the paths
whose traversal succeeded: the `LocalFileChecksum` paths of the `Append` calls
are the concatenation of the walked-file lists, each file as the code holds it
after its platform branch (unchanged unless `os.PathSeparator` is `\`); a path
whose traversal fails adds no unit and the run appends the same units as
without it; and `executor.Count()` returns the total number of walked files. -/
theorem queue_admission (env : Env) (localPaths : List GoString) (savePath : GoString)
    (opt : Option UploadOptions) (db : Ref) (hne : localPaths ≠ [])
    (hdb : env.NewUploadingDatabase = Except.ok db) :
    (appended (RunUpload env localPaths savePath opt)).map
        (fun a => a.1.LocalFileChecksum.Path) =
      (walkedLists env localPaths).flatten.map (walkedFile env) ∧
    (env.osPathSeparator ≠ '\\' →
      (appended (RunUpload env localPaths savePath opt)).map
          (fun a => a.1.LocalFileChecksum.Path) =
        (walkedLists env localPaths).flatten) ∧
    (∀ (a b : List GoString) (p err : GoString), localPaths = a ++ p :: b →
      env.WalkDir p [] = Except.error err →
      appended (RunUpload env localPaths savePath opt) =
        appended (RunUpload env (a ++ b) savePath opt)) ∧
    (appended (RunUpload env localPaths savePath opt)).length =
      (walkedLists env localPaths).flatten.length ∧
    countResults (RunUpload env localPaths savePath opt) =
      [(walkedLists env localPaths).flatten.length] := by
  have hpaths : (appended (RunUpload env localPaths savePath opt)).map
      (fun a => a.1.LocalFileChecksum.Path) =
      (walkedLists env localPaths).flatten.map (walkedFile env) := by
    rw [appended_RunUpload, hdb, ← walkedPairs_snd]
    simp [newUploadTaskUnit, Function.comp_def]
  have hlen : (walkedPairs env localPaths).length =
      (walkedLists env localPaths).flatten.length := by
    rw [← walkedPairs_snd, List.length_map]
  refine ⟨hpaths, ?_, ?_, ?_, ?_⟩
  · intro hsep
    rw [hpaths]
    have hid : walkedFile env = id := by
      funext w
      simp [walkedFile, unixPath, hsep]
    rw [hid, List.map_id]
  · intro a b p err hl herr
    rw [appended_RunUpload, appended_RunUpload, hdb, hl]
    simp [walkedPairs_append, walkedPairs, herr]
  · rw [appended_RunUpload, hdb, List.length_map, hlen]
  · cases localPaths with
    | nil => exact absurd rfl hne
    | cons p ps => rw [countResults_RunUpload env p ps savePath opt db hdb, hlen]

/-- Witness for `queue_admission`: the paths `missing` (whose traversal fails)
and `dir` (holding `x` and `y`) give two units, `dir/x` then `dir/y`. -/
theorem queue_admission_witness :
    ["missing".toList, "dir".toList] ≠ [] ∧
    (unixEnv 1 (Except.ok 7) walkTwo allSucceed).NewUploadingDatabase = Except.ok 7 ∧
    (appended (RunUpload (unixEnv 1 (Except.ok 7) walkTwo allSucceed)
        ["missing".toList, "dir".toList] "/up".toList none)).map
        (fun a => a.1.LocalFileChecksum.Path) = ["dir/x".toList, "dir/y".toList] ∧
    countResults (RunUpload (unixEnv 1 (Except.ok 7) walkTwo allSucceed)
        ["missing".toList, "dir".toList] "/up".toList none) = [2] :=
  ⟨by decide, rfl,
    (queue_admission (unixEnv 1 (Except.ok 7) walkTwo allSucceed)
      ["missing".toList, "dir".toList] "/up".toList none 7 (by decide) rfl).1,
    (queue_admission (unixEnv 1 (Except.ok 7) walkTwo allSucceed)
      ["missing".toList, "dir".toList] "/up".toList none 7 (by decide) rfl).2.2.2.2⟩

/-! ## Option normalisation (lines 43-57) -/

/-- The checked options, field by field. -/
theorem checkOpt_some (env : Env) (o : UploadOptions) :
    checkOpt env (some o) =
      { AllParallel := if o.AllParallel ≤ 0 then env.MaxUploadParallel else o.AllParallel
        Parallel := if o.Parallel ≤ 0 then 1 else o.Parallel
        MaxRetry := if o.MaxRetry < 0 then DefaultUploadMaxRetry else o.MaxRetry
        NoRapidUpload := o.NoRapidUpload
        NoSplitFile := o.NoSplitFile
        ShowProgress := o.ShowProgress
        IsOverwrite := o.IsOverwrite } := by
  unfold checkOpt
  simp only
  split_ifs <;> rfl

/-- A nil `opt` is checked as the zero value `UploadOptions{}`. -/
theorem checkOpt_none (env : Env) : checkOpt env none = checkOpt env (some {}) := rfl

/-- C4: for every non-nil `UploadOptions` value the checked `Parallel` is at
least 1 and the checked `MaxRetry` is at least 0; a `Parallel >= 1` and a
`MaxRetry >= 0` are left unchanged, a `Parallel <= 0` becomes 1, a
`MaxRetry < 0` becomes `DefaultUploadMaxRetry = 3`; checking twice gives the
same options as checking once; and every unit appended by `RunUpload` carries
the checked `Parallel` and is appended with the checked `MaxRetry`. -/
theorem checkOpt_parallel_maxRetry (env : Env) (o : UploadOptions) :
    1 ≤ (checkOpt env (some o)).Parallel ∧
    0 ≤ (checkOpt env (some o)).MaxRetry ∧
    (1 ≤ o.Parallel → (checkOpt env (some o)).Parallel = o.Parallel) ∧
    (0 ≤ o.MaxRetry → (checkOpt env (some o)).MaxRetry = o.MaxRetry) ∧
    (o.Parallel ≤ 0 → (checkOpt env (some o)).Parallel = 1) ∧
    (o.MaxRetry < 0 → (checkOpt env (some o)).MaxRetry = DefaultUploadMaxRetry) ∧
    DefaultUploadMaxRetry = 3 ∧
    checkOpt env (some (checkOpt env (some o))) = checkOpt env (some o) ∧
    (∀ (localPaths : List GoString) (savePath : GoString) (unit : UploadTaskUnit)
      (maxRetry : Int),
      (unit, maxRetry) ∈ appended (RunUpload env localPaths savePath (some o)) →
        unit.Parallel = (checkOpt env (some o)).Parallel ∧
        maxRetry = (checkOpt env (some o)).MaxRetry) := by
  refine ⟨?_, ?_, ?_, ?_, ?_, ?_, rfl, ?_, ?_⟩
  · rw [checkOpt_some]
    simp only
    split_ifs <;> omega
  · rw [checkOpt_some]
    simp only [DefaultUploadMaxRetry]
    split_ifs <;> omega
  · intro h
    rw [checkOpt_some]
    simp only
    split_ifs <;> omega
  · intro h
    rw [checkOpt_some]
    simp only
    split_ifs <;> omega
  · intro h
    rw [checkOpt_some]
    simp only [h, ↓reduceIte]
  · intro h
    rw [checkOpt_some]
    simp only [h, ↓reduceIte]
  · rw [checkOpt_some env o, checkOpt_some]
    simp only [DefaultUploadMaxRetry, UploadOptions.mk.injEq, and_true]
    refine ⟨?_, ?_, ?_⟩ <;> split_ifs <;> omega
  · intro localPaths savePath unit maxRetry h
    rw [appended_RunUpload] at h
    cases hdb : env.NewUploadingDatabase with
    | error err => simp [hdb] at h
    | ok db =>
      simp only [hdb, List.mem_map, Prod.mk.injEq] at h
      obtain ⟨pw, _, hu, hm⟩ := h
      exact ⟨by rw [← hu]; rfl, hm.symm⟩

/-- The options `Parallel = -2`, `MaxRetry = -1` are checked to `Parallel = 1`,
`MaxRetry = 3`, and `Parallel = 4`, `MaxRetry = 0` are kept. -/
theorem checkOpt_parallel_maxRetry_witness :
    (checkOpt (unixEnv 1 (Except.ok 7) walkFile allSucceed)
      (some { Parallel := -2, MaxRetry := -1 })).Parallel = 1 ∧
    (checkOpt (unixEnv 1 (Except.ok 7) walkFile allSucceed)
      (some { Parallel := -2, MaxRetry := -1 })).MaxRetry = DefaultUploadMaxRetry ∧
    (checkOpt (unixEnv 1 (Except.ok 7) walkFile allSucceed)
      (some { Parallel := 4, MaxRetry := 0 })).Parallel = 4 ∧
    (checkOpt (unixEnv 1 (Except.ok 7) walkFile allSucceed)
      (some { Parallel := 4, MaxRetry := 0 })).MaxRetry = 0 :=
  ⟨(checkOpt_parallel_maxRetry (unixEnv 1 (Except.ok 7) walkFile allSucceed)
      { Parallel := -2, MaxRetry := -1 }).2.2.2.2.1 (by decide),
    (checkOpt_parallel_maxRetry (unixEnv 1 (Except.ok 7) walkFile allSucceed)
      { Parallel := -2, MaxRetry := -1 }).2.2.2.2.2.1 (by decide),
    (checkOpt_parallel_maxRetry (unixEnv 1 (Except.ok 7) walkFile allSucceed)
      { Parallel := 4, MaxRetry := 0 }).2.2.1 (by decide),
    (checkOpt_parallel_maxRetry (unixEnv 1 (Except.ok 7) walkFile allSucceed)
      { Parallel := 4, MaxRetry := 0 }).2.2.2.1 (by decide)⟩

/-- C5, the code at a nil `opt`: `RunUpload` called with `opt == nil` appends
every unit with retry budget 0, the zero value of `UploadOptions{}.MaxRetry`,
and not with `DefaultUploadMaxRetry = 3`; shown for every run and evaluated on
the upload of the single file `a.txt` to `/up`. -/
theorem RunUpload_nil_opt_maxRetry :
    (∀ (env : Env) (localPaths : List GoString) (savePath : GoString)
      (unit : UploadTaskUnit) (maxRetry : Int),
      (unit, maxRetry) ∈ appended (RunUpload env localPaths savePath none) → maxRetry = 0) ∧
    (appended (RunUpload (unixEnv 1 (Except.ok 7) walkFile allSucceed) ["a.txt".toList] "/up".toList
      none)).map Prod.snd = [0] ∧
    DefaultUploadMaxRetry = 3 := by
  refine ⟨?_, by decide, rfl⟩
  intro env localPaths savePath unit maxRetry h
  rw [appended_RunUpload] at h
  cases hdb : env.NewUploadingDatabase with
  | error err => simp [hdb] at h
  | ok db =>
    simp only [hdb, List.mem_map, Prod.mk.injEq] at h
    obtain ⟨pw, _, _, hm⟩ := h
    rw [← hm, checkOpt_none, checkOpt_some]
    rfl

/-! ## File-level concurrency bound (lines 47-50 and 90) -/

/-- C6, counterexample: with `config.Config.MaxUploadParallel = 5` and a nil
`opt`, `SetParallel` receives 5 and not the constant 1; with a configured 0 and
`AllParallel = 0` it receives 0, which is below 1. -/
theorem setParallel_not_default :
    setParallelArgs (RunUpload (unixEnv 5 (Except.ok 7) walkFile allSucceed) ["a.txt".toList] "/up".toList
      none) = [5] ∧
    (5 : Int) ≠ DefaultUploadMaxAllParallel ∧
    setParallelArgs (RunUpload (unixEnv 0 (Except.ok 7) walkFile allSucceed) ["a.txt".toList] "/up".toList
      (some { AllParallel := 0 })) = [0] ∧
    ¬ (1 : Int) ≤ 0 := by
  refine ⟨by decide, by decide, by decide, by decide⟩

/-- C6, amended: the `n` that `RunUpload` passes to `SetParallel` equals
`opt.AllParallel` when that is at least 1, and equals the configured
`config.Config.MaxUploadParallel` when `opt.AllParallel <= 0` or `opt` is nil;
so `n >= 1` whenever the configured value is at least 1. -/
theorem setParallel_arg (env : Env) (localPaths : List GoString) (savePath : GoString)
    (opt : Option UploadOptions) (n : Int)
    (h : n ∈ setParallelArgs (RunUpload env localPaths savePath opt)) :
    (∀ o, opt = some o → 1 ≤ o.AllParallel → n = o.AllParallel) ∧
    (∀ o, opt = some o → o.AllParallel ≤ 0 → n = env.MaxUploadParallel) ∧
    (opt = none → n = env.MaxUploadParallel) ∧
    (1 ≤ env.MaxUploadParallel → 1 ≤ n) := by
  have hn : n = (checkOpt env opt).AllParallel := by
    rw [setParallelArgs_RunUpload] at h
    cases localPaths with
    | nil => simp at h
    | cons p ps =>
      cases hdb : env.NewUploadingDatabase with
      | error err => simp [hdb] at h
      | ok db => simpa [hdb] using h
  subst hn
  cases opt with
  | none =>
    rw [checkOpt_none, checkOpt_some]
    simp
  | some o =>
    rw [checkOpt_some]
    simp only [Option.some.injEq, forall_eq', reduceCtorEq, false_implies, true_and]
    refine ⟨?_, ?_, ?_⟩
    · intro h1
      rw [if_neg (by omega)]
    · intro h1
      rw [if_pos h1]
    · intro h1
      split_ifs <;> omega

/-- Witness for `setParallel_arg`: a run with `AllParallel = 4`. -/
theorem setParallel_arg_witness :
    (4 : Int) ∈ setParallelArgs (RunUpload (unixEnv 2 (Except.ok 7) walkFile allSucceed) ["a.txt".toList]
      "/up".toList (some { AllParallel := 4 })) ∧
    ((∀ o, some ({ AllParallel := 4 } : UploadOptions) = some o → 1 ≤ o.AllParallel →
        (4 : Int) = o.AllParallel) ∧
      (∀ o, some ({ AllParallel := 4 } : UploadOptions) = some o → o.AllParallel ≤ 0 →
        (4 : Int) = (unixEnv 2 (Except.ok 7) walkFile allSucceed).MaxUploadParallel) ∧
      (some ({ AllParallel := 4 } : UploadOptions) = none →
        (4 : Int) = (unixEnv 2 (Except.ok 7) walkFile allSucceed).MaxUploadParallel) ∧
      (1 ≤ (unixEnv 2 (Except.ok 7) walkFile allSucceed).MaxUploadParallel → 1 ≤ (4 : Int))) :=
  ⟨by decide, setParallel_arg (unixEnv 2 (Except.ok 7) walkFile allSucceed) ["a.txt".toList] "/up".toList
    (some { AllParallel := 4 }) 4 (by decide)⟩

/-! ## Ledger lifecycle (lines 71-77 and the deferred `Close`) -/

/-- C3: on every path on which `NewUploadingDatabase` succeeds, the trace of
`RunUpload` ends with `Close` on that ledger and holds no other `Close`, so it
comes after every `Append`, after `Execute` and after the failure report, also
on the early return taken when no unit was appended; when opening fails the
trace holds no `Append`, no `Execute` and no `Close`; and a run with no local
path never opens the ledger. -/
theorem ledger_lifecycle (env : Env) (localPaths : List GoString) (savePath : GoString)
    (opt : Option UploadOptions) :
    (∀ db, localPaths ≠ [] → env.NewUploadingDatabase = Except.ok db →
      ∃ pre, RunUpload env localPaths savePath opt = pre ++ [Event.Close db] ∧
        (∀ d, Event.Close d ∉ pre) ∧
        (walkedPairs env localPaths = [] →
          ∃ pre0, pre = pre0 ++ [Event.Printf Message.noFiles])) ∧
    (∀ err, env.NewUploadingDatabase = Except.error err →
      appended (RunUpload env localPaths savePath opt) = [] ∧
      (∀ x, Event.Execute x ∉ RunUpload env localPaths savePath opt) ∧
      (∀ d, Event.Close d ∉ RunUpload env localPaths savePath opt)) ∧
    (localPaths = [] →
      Event.NewUploadingDatabase ∉ RunUpload env localPaths savePath opt ∧
      (∀ d, Event.Close d ∉ RunUpload env localPaths savePath opt)) := by
  refine ⟨?_, ?_, ?_⟩
  · intro db hne hdb
    cases localPaths with
    | nil => exact absurd rfl hne
    | cons p ps =>
      refine ⟨probeSavePath env (env.PathJoin savePath) ++ [Event.NewUploadingDatabase] ++
        runWithDatabase env (p :: ps) (env.PathJoin savePath) (checkOpt env opt) db,
        RunUpload_ok env p ps savePath opt db hdb, ?_, ?_⟩
      · intro d
        rw [mem_of_skeleton (Event.Close d) rfl]
        simp only [List.filter_append, probe_filter_skeleton, skeleton_runWithDatabase]
        split_ifs <;> simp [skeletonEvent, probeEvent, queueEvent, reportEvent]
      · intro hw
        rw [runWithDatabase_eq, hw]
        simp only [List.length_nil, ↓reduceIte]
        exact ⟨_, (List.append_assoc _ _ _).symm⟩
  · intro err herr
    refine ⟨by rw [appended_RunUpload, herr], ?_, ?_⟩
    · intro x
      rw [mem_of_skeleton (Event.Execute x) rfl, skeleton_RunUpload, herr]
      cases localPaths <;> simp
    · intro d
      rw [mem_of_skeleton (Event.Close d) rfl, skeleton_RunUpload, herr]
      cases localPaths <;> simp
  · intro hnil
    subst hnil
    refine ⟨?_, ?_⟩
    · rw [mem_of_skeleton Event.NewUploadingDatabase rfl, skeleton_RunUpload]
      simp
    · intro d
      rw [mem_of_skeleton (Event.Close d) rfl, skeleton_RunUpload]
      simp

/-- The run over `missing`, whose traversal fails, with a ledger that opens:
no unit is appended, and the early return still ends with the one `Close`. -/
theorem ledger_lifecycle_witness :
    ∃ pre, RunUpload (unixEnv 1 (Except.ok 7) walkTwo allSucceed) ["missing".toList]
        "/up".toList none = pre ++ [Event.Close 7] ∧
      (∀ d, Event.Close d ∉ pre) ∧
      ∃ pre0, pre = pre0 ++ [Event.Printf Message.noFiles] := by
  obtain ⟨pre, h1, h2, h3⟩ := (ledger_lifecycle (unixEnv 1 (Except.ok 7) walkTwo allSucceed)
    ["missing".toList] "/up".toList none).1 7 (by decide) rfl
  exact ⟨pre, h1, h2, h3 (by decide)⟩

/-! ## Execute gating (lines 65-76 and 135-145) -/

/-- C9: `Execute` is called at most once per run, and it is called exactly
when the list of local paths is non-empty, the ledger opened and `Count()`
returned a non-zero number after enqueueing; with no local path the run
neither opens the ledger nor appends a unit; and a run that does not call
`Execute` prints no summary and produces no event of the failure report. -/
theorem execute_gating (env : Env) (localPaths : List GoString) (savePath : GoString)
    (opt : Option UploadOptions) :
    ((RunUpload env localPaths savePath opt).filter executeEvent).length ≤ 1 ∧
    ((∃ x, Event.Execute x ∈ RunUpload env localPaths savePath opt) ↔
      localPaths ≠ [] ∧ (∃ db, env.NewUploadingDatabase = Except.ok db) ∧
        ∃ x n, Event.Count x n ∈ RunUpload env localPaths savePath opt ∧ n ≠ 0) ∧
    (localPaths = [] →
      Event.NewUploadingDatabase ∉ RunUpload env localPaths savePath opt ∧
      appended (RunUpload env localPaths savePath opt) = []) ∧
    ((∀ x, Event.Execute x ∉ RunUpload env localPaths savePath opt) →
      Event.Printf Message.summary ∉ RunUpload env localPaths savePath opt ∧
      ∀ e ∈ RunUpload env localPaths savePath opt, reportEvent e = false) := by
  have hE : ∀ x, Event.Execute x ∈ RunUpload env localPaths savePath opt ↔
      Event.Execute x ∈ (RunUpload env localPaths savePath opt).filter skeletonEvent :=
    fun x => mem_of_skeleton (Event.Execute x) rfl _
  have hC : ∀ x n, Event.Count x n ∈ RunUpload env localPaths savePath opt ↔
      Event.Count x n ∈ (RunUpload env localPaths savePath opt).filter skeletonEvent :=
    fun x n => mem_of_skeleton (Event.Count x n) rfl _
  have hS : Event.Printf Message.summary ∈ RunUpload env localPaths savePath opt ↔
      Event.Printf Message.summary ∈
        (RunUpload env localPaths savePath opt).filter skeletonEvent :=
    mem_of_skeleton (Event.Printf Message.summary) rfl _
  have hN : Event.NewUploadingDatabase ∈ RunUpload env localPaths savePath opt ↔
      Event.NewUploadingDatabase ∈
        (RunUpload env localPaths savePath opt).filter skeletonEvent :=
    mem_of_skeleton Event.NewUploadingDatabase rfl _
  have hrep : (∀ e ∈ RunUpload env localPaths savePath opt, reportEvent e = false) ↔
      (RunUpload env localPaths savePath opt).filter reportEvent = [] := by
    rw [List.filter_eq_nil_iff]
    simp
  rw [filter_execute_skeleton, hrep, hS, hN]
  simp only [hE, hC]
  rw [skeleton_RunUpload, report_RunUpload, appended_RunUpload]
  cases localPaths with
  | nil =>
    simp only [executeEvent, walkedPairs]
    cases env.NewUploadingDatabase <;> simp [executeEvent]
  | cons p ps =>
    cases hdb : env.NewUploadingDatabase with
    | error err => simp [executeEvent]
    | ok db =>
      by_cases hw : (walkedPairs env (p :: ps)).length = 0
      · simp [executeEvent, hw]
      · simp [executeEvent, hw]
        exact ⟨env.heap, _, ⟨rfl, rfl⟩, hw⟩

/-- The run over `dir` with a ledger that opens calls `Execute`; the run with
no local path does not, and prints no summary. -/
theorem execute_gating_witness :
    (∃ x, Event.Execute x ∈ RunUpload (unixEnv 1 (Except.ok 7) walkTwo allSucceed)
      ["dir".toList] "/up".toList none) ∧
    Event.Printf Message.summary ∉
      RunUpload (unixEnv 1 (Except.ok 7) walkTwo allSucceed) [] "/up".toList none :=
  ⟨(execute_gating (unixEnv 1 (Except.ok 7) walkTwo allSucceed) ["dir".toList] "/up".toList
      none).2.1.2 ⟨by decide, ⟨7, rfl⟩, ⟨10, 2, by decide, by decide⟩⟩,
    ((execute_gating (unixEnv 1 (Except.ok 7) walkTwo allSucceed) [] "/up".toList
      none).2.2.2 (fun x hx => by simp [RunUpload_nil, probeSavePath, unixEnv] at hx)).1⟩

/-! ## Failure report (lines 147-157) -/

/-- C2: for every failed deque the reporting loop returns (it is a total
function), appends exactly one row `(task id, local file path)` per item in
the deque's order and leaves the deque empty; the report of an empty deque is
the `FailedDeque` call alone, with no table; and in a run that executes, the
rows of the table are those of the executor's failed deque. -/
theorem failure_report (executor : Ref) (failedList : List TaskInfoItem) :
    reportLoop failedList [] =
      (failedList.map fun item => [item.Info.Id, item.Unit.LocalFileChecksum.Path], []) ∧
    tableRows (reportFailed executor failedList) =
      failedList.map (fun item => [item.Info.Id, item.Unit.LocalFileChecksum.Path]) ∧
    (failedList = [] → reportFailed executor failedList = [Event.FailedDeque executor]) ∧
    (failedList ≠ [] → reportFailed executor failedList =
      [Event.FailedDeque executor, Event.Printf Message.failedHeader, Event.NewTable] ++
        failedList.map (fun item =>
          Event.TableAppend [item.Info.Id, item.Unit.LocalFileChecksum.Path]) ++
        [Event.Render]) ∧
    (∀ (env : Env) (localPaths : List GoString) (savePath : GoString)
      (opt : Option UploadOptions) (db : Ref),
      env.NewUploadingDatabase = Except.ok db → walkedPairs env localPaths ≠ [] →
      tableRows (RunUpload env localPaths savePath opt) =
        ((queuedExecutor env localPaths savePath opt db).Execute env.outcome).FailedDeque.map
          fun item => [item.Info.Id, item.Unit.LocalFileChecksum.Path]) := by
  refine ⟨?_, ?_, ?_, ?_, ?_⟩
  · rw [reportLoop_eq]
    rfl
  · rw [tableRows_reportFailed]
    rfl
  · intro h
    rw [reportFailed_eq, if_pos h]
  · intro h
    rw [reportFailed_eq, if_neg h]
    simp [failedRow, Function.comp_def]
  · intro env localPaths savePath opt db hdb hw
    rw [tableRows_filter_report, report_RunUpload, hdb]
    cases localPaths with
    | nil => simp [walkedPairs] at hw
    | cons p ps =>
      simp only
      rw [if_neg (by simpa using hw), tableRows_reportFailed]
      rfl

/-- The failure report of a run in which both units of `dir` fail: one row per
unit, in queue order. -/
theorem failure_report_witness :
    tableRows (RunUpload (unixEnv 1 (Except.ok 7) walkTwo allFail) ["dir".toList]
      "/up".toList none) =
      [["0".toList, "dir/x".toList], ["1".toList, "dir/y".toList]] :=
  ((failure_report 0 []).2.2.2.2 (unixEnv 1 (Except.ok 7) walkTwo allFail) ["dir".toList]
    "/up".toList none 7 rfl (by decide)).trans (by decide)

/-! ## Shared handles and uniform configuration (lines 71-92 and 118-130) -/

/-- C7: in one run with a local path and a ledger that opens, every `Append`
goes to the one executor of the run and carries a unit that references the
one ledger, the one folder-creation mutex and the one statistic of the run and
the checked `Parallel`, `NoRapidUpload`, `NoSplitFile`, `ShowProgress` and
`IsOverwrite`, with the checked `MaxRetry` as retry budget; two appended units
differ at most in `LocalFileChecksum` and `SavePath`; and the ledger, the
executor, the statistic and the mutex are each created once, in the part of
the trace before the first `Append`. -/
theorem shared_handles (env : Env) (localPaths : List GoString) (savePath : GoString)
    (opt : Option UploadOptions) (db : Ref) (hne : localPaths ≠ [])
    (hdb : env.NewUploadingDatabase = Except.ok db) :
    (∀ x unit maxRetry, Event.Append x unit maxRetry ∈ RunUpload env localPaths savePath opt →
      x = env.heap ∧ unit.UploadingDatabase = db ∧ unit.FolderCreateMutex = env.heap + 2 ∧
      unit.UploadStatistic = env.heap + 1 ∧ unit.PanClient = env.PanClient ∧
      unit.Parallel = (checkOpt env opt).Parallel ∧
      unit.NoRapidUpload = (checkOpt env opt).NoRapidUpload ∧
      unit.NoSplitFile = (checkOpt env opt).NoSplitFile ∧
      unit.ShowProgress = (checkOpt env opt).ShowProgress ∧
      unit.IsOverwrite = (checkOpt env opt).IsOverwrite ∧
      maxRetry = (checkOpt env opt).MaxRetry) ∧
    (∀ o, opt = some o →
      (checkOpt env opt).NoRapidUpload = o.NoRapidUpload ∧
      (checkOpt env opt).NoSplitFile = o.NoSplitFile ∧
      (checkOpt env opt).ShowProgress = o.ShowProgress ∧
      (checkOpt env opt).IsOverwrite = o.IsOverwrite) ∧
    (∀ x₁ u₁ m₁ x₂ u₂ m₂,
      Event.Append x₁ u₁ m₁ ∈ RunUpload env localPaths savePath opt →
      Event.Append x₂ u₂ m₂ ∈ RunUpload env localPaths savePath opt →
      x₁ = x₂ ∧ m₁ = m₂ ∧
      { u₁ with LocalFileChecksum := u₂.LocalFileChecksum, SavePath := u₂.SavePath } = u₂) ∧
    (∃ pre post, RunUpload env localPaths savePath opt = pre ++ post ∧
      pre.filter creationEvent =
        [Event.NewUploadingDatabase, Event.NewTaskExecutor env.heap,
          Event.NewUploadStatistic (env.heap + 1), Event.NewMutex (env.heap + 2)] ∧
      appended pre = [] ∧
      post.filter creationEvent = []) := by
  have hunit : ∀ x unit maxRetry,
      Event.Append x unit maxRetry ∈ RunUpload env localPaths savePath opt →
      x = env.heap ∧ maxRetry = (checkOpt env opt).MaxRetry ∧
      ∃ pw : GoString × GoString,
        unit = newUploadTaskUnit env (env.PathJoin savePath) (checkOpt env opt)
          (newShared env db) pw.1 pw.2 := by
    intro x unit maxRetry h
    obtain ⟨db', hdb', hx, hm, pw, _, hu⟩ := mem_Append_RunUpload _ _ _ _ _ _ _ h
    rw [hdb] at hdb'
    cases hdb'
    exact ⟨hx, hm, pw, hu⟩
  refine ⟨?_, ?_, ?_, ?_⟩
  · intro x unit maxRetry h
    obtain ⟨hx, hm, pw, hu⟩ := hunit x unit maxRetry h
    subst hu
    exact ⟨hx, rfl, rfl, rfl, rfl, rfl, rfl, rfl, rfl, rfl, hm⟩
  · intro o ho
    subst ho
    rw [checkOpt_some]
    exact ⟨rfl, rfl, rfl, rfl⟩
  · intro x₁ u₁ m₁ x₂ u₂ m₂ h₁ h₂
    obtain ⟨hx₁, hm₁, pw₁, hu₁⟩ := hunit x₁ u₁ m₁ h₁
    obtain ⟨hx₂, hm₂, pw₂, hu₂⟩ := hunit x₂ u₂ m₂ h₂
    subst hu₁ hu₂
    exact ⟨hx₁.trans hx₂.symm, hm₁.trans hm₂.symm, rfl⟩
  · cases localPaths with
    | nil => exact absurd rfl hne
    | cons p ps =>
      refine ⟨probeSavePath env (env.PathJoin savePath) ++ [Event.NewUploadingDatabase] ++
          [Event.NewTaskExecutor env.heap, Event.NewUploadStatistic (env.heap + 1),
            Event.NewMutex (env.heap + 2),
            Event.SetParallel env.heap (checkOpt env opt).AllParallel,
            Event.StartTimer (env.heap + 1)],
        (appendLocalPaths env (env.PathJoin savePath) (checkOpt env opt) (newShared env db)
          (p :: ps)
          (TaskExecutor.SetParallel { IsFailedDeque := true }
            (checkOpt env opt).AllParallel)).2 ++
        [Event.Count env.heap (walkedPairs env (p :: ps)).length] ++
        (if (walkedPairs env (p :: ps)).length = 0 then [Event.Printf Message.noFiles]
         else [Event.Execute env.heap, Event.Printf Message.newline,
            Event.Printf Message.summary] ++
          reportFailed env.heap
            ((queuedExecutor env (p :: ps) savePath opt db).Execute
              env.outcome).FailedDeque) ++ [Event.Close db], ?_, ?_, ?_, ?_⟩
      · rw [RunUpload_ok env p ps savePath opt db hdb, runWithDatabase_eq]
        simp only [List.append_assoc]
      · simp only [List.filter_append]
        rw [filter_eq_nil_of_forall creationEvent probeEvent
          (by intro e h; cases e <;> simp_all [probeEvent, creationEvent]) _
          (probeSavePath_probeEvent _ _)]
        simp [creationEvent]
      · unfold appended
        simp only [List.filterMap_append]
        rw [filterMap_probe asAppend (by intro e; cases e <;> simp [probeEvent, asAppend])]
        simp [asAppend]
      · simp only [List.filter_append]
        rw [apply_ite (List.filter creationEvent), List.filter_append,
          filter_eq_nil_of_forall creationEvent reportEvent
            (by intro e h; cases e <;> simp_all [reportEvent, creationEvent]) _
            (reportFailed_reportEvent _ _),
          filter_eq_nil_of_forall creationEvent queueEvent
            (by intro e h; cases e <;> simp_all [queueEvent, creationEvent]) _
            (appendLocalPaths_queueEvent _ _ _ _ _ _)]
        split_ifs <;> simp [creationEvent]

/-- Witness for `shared_handles`: the run over `dir` (holding `x` and `y`)
with `Parallel = 3` and `MaxRetry = 2`. -/
theorem shared_handles_witness :
    ["dir".toList] ≠ [] ∧
    (unixEnv 1 (Except.ok 7) walkTwo allSucceed).NewUploadingDatabase = Except.ok 7 ∧
    (appended (RunUpload (unixEnv 1 (Except.ok 7) walkTwo allSucceed) ["dir".toList]
      "/up".toList (some { Parallel := 3, MaxRetry := 2 }))).length = 2 ∧
    (∀ x₁ u₁ m₁ x₂ u₂ m₂,
      Event.Append x₁ u₁ m₁ ∈ RunUpload (unixEnv 1 (Except.ok 7) walkTwo allSucceed)
        ["dir".toList] "/up".toList (some { Parallel := 3, MaxRetry := 2 }) →
      Event.Append x₂ u₂ m₂ ∈ RunUpload (unixEnv 1 (Except.ok 7) walkTwo allSucceed)
        ["dir".toList] "/up".toList (some { Parallel := 3, MaxRetry := 2 }) →
      x₁ = x₂ ∧ m₁ = m₂ ∧
      { u₁ with LocalFileChecksum := u₂.LocalFileChecksum, SavePath := u₂.SavePath } = u₂) :=
  ⟨by decide, rfl, by decide,
    (shared_handles (unixEnv 1 (Except.ok 7) walkTwo allSucceed) ["dir".toList] "/up".toList
      (some { Parallel := 3, MaxRetry := 2 }) 7 (by decide) rfl).2.2.1⟩

/-! ## Remote save path (lines 102-120) -/

/-- C8: the `SavePath` of the unit of walked file `w` of local path `p` is
`path.Clean(savePath + "/" + r)`, with `savePath` the variable as line 120
reads it (after line 59) and `r = subSavePath`, which is `w` with the prefix
`filepath.Dir(p)` removed when `w` starts with it and `w` itself otherwise;
when `filepath.Dir(p)` is `.` the prefix is empty and `r = w`.  Both `w` and
the directory are taken after the platform branch, which changes nothing
unless `os.PathSeparator` is `\`. -/
theorem savePath_derivation (env : Env) (localPaths : List GoString) (savePath : GoString)
    (opt : Option UploadOptions) (db : Ref) (hdb : env.NewUploadingDatabase = Except.ok db) :
    (appended (RunUpload env localPaths savePath opt)).map
        (fun a => (a.1.LocalFileChecksum.Path, a.1.SavePath)) =
      (walkedPairs env localPaths).map (fun pw =>
        (walkedFile env pw.2,
          Clean (env.PathJoin savePath ++ ['/'] ++ subSavePath env pw.1 pw.2))) ∧
    (∀ p w : GoString,
      (unixPath env (env.Dir p) = ['.'] → subSavePath env p w = walkedFile env w) ∧
      (unixPath env (env.Dir p) ≠ ['.'] → unixPath env (env.Dir p) <+: walkedFile env w →
        unixPath env (env.Dir p) ++ subSavePath env p w = walkedFile env w) ∧
      (unixPath env (env.Dir p) ≠ ['.'] → ¬ unixPath env (env.Dir p) <+: walkedFile env w →
        subSavePath env p w = walkedFile env w)) ∧
    (env.osPathSeparator ≠ '\\' →
      ∀ p w : GoString, unixPath env (env.Dir p) = env.Dir p ∧ walkedFile env w = w) := by
  refine ⟨?_, ?_, ?_⟩
  · rw [appended_RunUpload, hdb]
    simp [newUploadTaskUnit, Function.comp_def, PathSeparator]
  · intro p w
    refine ⟨?_, ?_, ?_⟩
    · intro hd
      simp [subSavePath, localPathDir, hd, TrimPrefix, HasPrefix]
    · intro hd hpre
      simp only [subSavePath, localPathDir, hd, ↓reduceIte, TrimPrefix,
        (hasPrefix_iff _ _).2 hpre]
      obtain ⟨t, ht⟩ := hpre
      rw [← ht]
      simp
    · intro hd hpre
      have hfalse : HasPrefix (walkedFile env w) (unixPath env (env.Dir p)) = false := by
        rw [Bool.eq_false_iff]
        exact fun h => hpre ((hasPrefix_iff _ _).1 h)
      simp [subSavePath, localPathDir, hd, TrimPrefix, hfalse]
  · intro hsep p w
    simp [walkedFile, unixPath, hsep]

/-- Witness for `savePath_derivation`: the file `.bashrc` keeps its leading
dot under `/up`, and the file `a.txt` of `/home/u/docs` lands in `/up/docs`. -/
theorem savePath_derivation_witness :
    (unixEnv 1 (Except.ok 7) walkFile allSucceed).NewUploadingDatabase = Except.ok 7 ∧
    (appended (RunUpload (unixEnv 1 (Except.ok 7) walkFile allSucceed)
        [".bashrc".toList, "/home/u/docs/a.txt".toList] "/up".toList none)).map
        (fun a => (a.1.LocalFileChecksum.Path, a.1.SavePath)) =
      [(".bashrc".toList, "/up/.bashrc".toList),
        ("/home/u/docs/a.txt".toList, "/up/a.txt".toList)] ∧
    (appended (RunUpload
        (unixEnv 1 (Except.ok 7) (fun p => Except.ok [p ++ "/a.txt".toList]) allSucceed)
        ["/home/u/docs".toList] "/up".toList none)).map
        (fun a => (a.1.LocalFileChecksum.Path, a.1.SavePath)) =
      [("/home/u/docs/a.txt".toList, "/up/docs/a.txt".toList)] :=
  ⟨rfl,
    ((savePath_derivation (unixEnv 1 (Except.ok 7) walkFile allSucceed)
      [".bashrc".toList, "/home/u/docs/a.txt".toList] "/up".toList none 7 rfl).1).trans
      (by decide),
    ((savePath_derivation
      (unixEnv 1 (Except.ok 7) (fun p => Except.ok [p ++ "/a.txt".toList]) allSucceed)
      ["/home/u/docs".toList] "/up".toList none 7 rfl).1).trans (by decide)⟩

/-! ## `path.Clean`: the loop element by element -/

theorem copyElement_eq (path out : GoString) :
    copyElement path out =
      (out ++ path.takeWhile (fun c => c ≠ '/'), path.dropWhile (fun c => c ≠ '/')) := by
  induction path generalizing out with
  | nil => simp [copyElement]
  | cons c rest ih =>
    by_cases hc : c = '/'
    · simp [copyElement, hc]
    · simp [copyElement, hc, ih]

theorem dropWhile_length_le (path : GoString) :
    (path.dropWhile (fun c => c ≠ '/')).length ≤ path.length := by
  induction path with
  | nil => simp
  | cons c rest ih =>
    rw [List.dropWhile_cons]
    split_ifs
    · simp only [List.length_cons]
      omega
    · simp

/-- The fuel of `cleanLoop` is never exhausted once it covers the unread
bytes: any two such fuels give the same final state. -/
theorem cleanLoop_fuel (rooted : Bool) (f₁ : Nat) :
    ∀ (f₂ : Nat) (path : GoString) (st : CleanState), path.length ≤ f₁ → path.length ≤ f₂ →
      cleanLoop rooted f₁ path st = cleanLoop rooted f₂ path st := by
  induction f₁ with
  | zero =>
    intro f₂ path st h₁ _
    have : path = [] := List.length_eq_zero.1 (by omega)
    subst this
    cases f₂ <;> simp [cleanLoop]
  | succ n ih =>
    intro f₂ path st h₁ h₂
    cases path with
    | nil => cases f₂ <;> simp [cleanLoop]
    | cons c rest =>
      cases f₂ with
      | zero => simp at h₂
      | succ m =>
        simp only [List.length_cons, Nat.add_le_add_iff_right] at h₁ h₂
        have ht : rest.tail.length ≤ rest.length := by simp
        have hd := dropWhile_length_le rest
        simp only [cleanLoop, copyElement_eq]
        by_cases h1 : c = '/'
        · rw [if_pos h1, if_pos h1]
          exact ih m rest st h₁ h₂
        · have hc : (c :: rest).dropWhile (fun c => c ≠ '/') =
              rest.dropWhile (fun c => c ≠ '/') := by
            simp [List.dropWhile_cons, h1]
          rw [if_neg h1, if_neg h1, hc]
          by_cases h2 : c = '.' ∧ (rest = [] ∨ rest.head? = some '/')
          · rw [if_pos h2, if_pos h2]
            exact ih m rest st h₁ h₂
          · rw [if_neg h2, if_neg h2]
            by_cases h3 : c = '.' ∧ rest.head? = some '.' ∧
                (rest.tail = [] ∨ rest.tail.head? = some '/')
            · rw [if_pos h3, if_pos h3]
              exact ih m rest.tail _ (by omega) (by omega)
            · rw [if_neg h3, if_neg h3]
              exact ih m _ _ (by omega) (by omega)

theorem cleanRun_nil (rooted : Bool) (st : CleanState) : cleanRun rooted [] st = st := rfl

/-- One iteration of the main loop of `path.Clean`. -/
theorem cleanRun_cons (rooted : Bool) (c : Char) (rest : GoString) (st : CleanState) :
    cleanRun rooted (c :: rest) st =
      if c = '/' then cleanRun rooted rest st
      else if c = '.' ∧ (rest = [] ∨ rest.head? = some '/') then cleanRun rooted rest st
      else if c = '.' ∧ rest.head? = some '.' ∧
          (rest.tail = [] ∨ rest.tail.head? = some '/') then
        cleanRun rooted rest.tail (dotdotStep rooted st)
      else
        cleanRun rooted (rest.dropWhile (fun c => c ≠ '/'))
          { st with out :=
              (if (rooted ∧ st.out.length ≠ 1) ∨ (¬ rooted ∧ st.out.length ≠ 0)
                then st.out ++ ['/'] else st.out) ++
              c :: rest.takeWhile (fun c => c ≠ '/') } := by
  unfold cleanRun
  simp only [List.length_cons, cleanLoop, copyElement_eq]
  by_cases h1 : c = '/'
  · rw [if_pos h1, if_pos h1]
  · have hc : (c :: rest).dropWhile (fun c => c ≠ '/') =
        rest.dropWhile (fun c => c ≠ '/') := by
      simp [List.dropWhile_cons, h1]
    have ht : (c :: rest).takeWhile (fun c => c ≠ '/') =
        c :: rest.takeWhile (fun c => c ≠ '/') := by
      simp [List.takeWhile_cons, h1]
    rw [if_neg h1, if_neg h1, hc, ht]
    by_cases h2 : c = '.' ∧ (rest = [] ∨ rest.head? = some '/')
    · rw [if_pos h2, if_pos h2]
    · rw [if_neg h2, if_neg h2]
      by_cases h3 : c = '.' ∧ rest.head? = some '.' ∧
          (rest.tail = [] ∨ rest.tail.head? = some '/')
      · rw [if_pos h3, if_pos h3]
        exact cleanLoop_fuel rooted _ _ _ _ (by simp) (le_refl _)
      · rw [if_neg h3, if_neg h3]
        exact cleanLoop_fuel rooted _ _ _ _ (dropWhile_length_le rest) (le_refl _)

theorem takeWhile_append_slash (a b : GoString) :
    (a ++ '/' :: b).takeWhile (fun c => c ≠ '/') = a.takeWhile (fun c => c ≠ '/') := by
  induction a with
  | nil => simp
  | cons c a ih =>
    by_cases hc : c = '/'
    · simp [hc]
    · simp only [List.cons_append, List.takeWhile_cons, ne_eq, hc, not_false_eq_true,
        decide_True, ↓reduceIte, ih]

theorem dropWhile_append_slash (a b : GoString) :
    (a ++ '/' :: b).dropWhile (fun c => c ≠ '/') =
      a.dropWhile (fun c => c ≠ '/') ++ '/' :: b := by
  induction a with
  | nil => simp
  | cons c a ih =>
    by_cases hc : c = '/'
    · simp [hc]
    · simp only [List.cons_append, List.dropWhile_cons, ne_eq, hc, not_false_eq_true,
        decide_True, ↓reduceIte, ih]

theorem elementEnd_append_slash (a b : GoString) :
    (a ++ '/' :: b = [] ∨ (a ++ '/' :: b).head? = some '/') ↔
      (a = [] ∨ a.head? = some '/') := by
  cases a <;> simp

/-- Reading a path up to one of its `/` separators leaves the loop in the
state it reaches on the part before that separator alone. -/
theorem cleanRun_append_slash (rooted : Bool) (n : Nat) :
    ∀ (a b : GoString) (st : CleanState), a.length ≤ n →
      cleanRun rooted (a ++ '/' :: b) st = cleanRun rooted ('/' :: b) (cleanRun rooted a st) := by
  induction n with
  | zero =>
    intro a b st h
    have : a = [] := List.length_eq_zero.1 (by omega)
    subst this
    rfl
  | succ n ih =>
    intro a b st h
    cases a with
    | nil => rfl
    | cons c a =>
      simp only [List.length_cons, Nat.add_le_add_iff_right] at h
      rw [List.cons_append, cleanRun_cons, cleanRun_cons rooted c a]
      by_cases h1 : c = '/'
      · rw [if_pos h1, if_pos h1]
        exact ih a b st h
      · rw [if_neg h1, if_neg h1]
        by_cases h2 : c = '.' ∧ (a = [] ∨ a.head? = some '/')
        · rw [if_pos h2, if_pos (by rw [elementEnd_append_slash]; exact h2)]
          exact ih a b st h
        · rw [if_neg h2, if_neg (by rw [elementEnd_append_slash]; exact h2)]
          have h3iff : (c = '.' ∧ (a ++ '/' :: b).head? = some '.' ∧
              ((a ++ '/' :: b).tail = [] ∨ (a ++ '/' :: b).tail.head? = some '/')) ↔
              (c = '.' ∧ a.head? = some '.' ∧ (a.tail = [] ∨ a.tail.head? = some '/')) := by
            cases a with
            | nil => simp
            | cons d a' =>
              simp only [List.cons_append, List.head?_cons, List.tail_cons]
              rw [elementEnd_append_slash]
          by_cases h3 : c = '.' ∧ a.head? = some '.' ∧ (a.tail = [] ∨ a.tail.head? = some '/')
          · rw [if_pos h3, if_pos (h3iff.2 h3)]
            have hne : a ≠ [] := by
              rintro rfl
              simp at h3
            obtain ⟨d, a', rfl⟩ := List.exists_cons_of_ne_nil hne
            simp only [List.cons_append, List.tail_cons]
            exact ih a' b _ (by simp only [List.length_cons] at h; omega)
          · rw [if_neg h3, if_neg (fun h => h3 (h3iff.1 h))]
            rw [takeWhile_append_slash, dropWhile_append_slash]
            exact ih _ b _ (le_trans (dropWhile_length_le a) h)

theorem pathElements_ne_nil (path : GoString) : pathElements path ≠ [] := by
  cases path with
  | nil => simp [pathElements]
  | cons c cs =>
    simp only [pathElements]
    split_ifs
    · simp
    · cases pathElements cs <;> simp

theorem pathElements_slash (cs : GoString) :
    pathElements ('/' :: cs) = [] :: pathElements cs := by
  simp [pathElements]

theorem pathElements_cons (c : Char) (cs : GoString) (hc : c ≠ '/') :
    pathElements (c :: cs) = (c :: (pathElements cs).headD []) :: (pathElements cs).tail := by
  simp only [pathElements, if_neg hc]
  have := pathElements_ne_nil cs
  cases h : pathElements cs with
  | nil => exact absurd h this
  | cons e es => rfl

theorem pathElements_dropWhile (path : GoString) :
    pathElements (path.dropWhile (fun c => c ≠ '/')) = [] :: (pathElements path).tail := by
  induction path with
  | nil => simp [pathElements]
  | cons c cs ih =>
    by_cases hc : c = '/'
    · subst hc
      simp [pathElements_slash]
    · rw [pathElements_cons c cs hc]
      simp only [List.dropWhile_cons, ne_eq, hc, not_false_eq_true, decide_True, ↓reduceIte,
        ih, List.tail_cons]

theorem mem_pathElements_of_tail (c : Char) (cs : GoString) (hc : c ≠ '/') (x : GoString)
    (hx : x ∈ (pathElements cs).tail) : x ∈ pathElements (c :: cs) := by
  rw [pathElements_cons c cs hc]
  exact List.mem_cons_of_mem _ hx

theorem dotdot_mem_pathElements (rest : GoString)
    (h : rest = [] ∨ rest.head? = some '/') :
    ['.', '.'] ∈ pathElements ('.' :: '.' :: rest) := by
  have hd : (pathElements rest).headD [] = [] := by
    rcases h with rfl | h
    · simp [pathElements]
    · cases rest with
      | nil => simp at h
      | cons d t =>
        simp only [List.head?_cons, Option.some.injEq] at h
        subst h
        simp [pathElements_slash]
  rw [pathElements_cons '.' _ (by decide), pathElements_cons '.' _ (by decide), hd]
  simp

theorem inside_step (sp out x : GoString) (hsp : sp.head? = some '/')
    (h : out = sp ∨ (sp ++ ['/']) <+: out ∨ (sp = ['/'] ∧ ['/'] <+: out)) :
    (if out.length ≠ 1 then out ++ ['/'] else out) ++ x = sp ∨
      (sp ++ ['/']) <+: (if out.length ≠ 1 then out ++ ['/'] else out) ++ x ∨
      (sp = ['/'] ∧ ['/'] <+: (if out.length ≠ 1 then out ++ ['/'] else out) ++ x) := by
  have hpre : out <+: (if out.length ≠ 1 then out ++ ['/'] else out) ++ x := by
    split_ifs
    · rw [List.append_assoc]
      exact List.prefix_append _ _
    · exact List.prefix_append _ _
  rcases h with rfl | h | ⟨h1, h2⟩
  · by_cases hl : out.length = 1
    · right; right
      have hout : out = ['/'] := by
        cases out with
        | nil => simp at hl
        | cons c t =>
          simp only [List.length_cons, Nat.add_left_eq_self, List.length_eq_zero] at hl
          simp only [List.head?_cons, Option.some.injEq] at hsp
          rw [hl, hsp]
      exact ⟨hout, by rw [hout] at hpre ⊢; exact hpre⟩
    · right; left
      rw [if_pos hl]
      exact List.prefix_append _ _
  · exact Or.inr (Or.inl (h.trans hpre))
  · exact Or.inr (Or.inr ⟨h1, h2.trans hpre⟩)

/-- Without a `..` element the rooted loop never backtracks: an output
inside `sp` stays inside `sp`. -/
theorem cleanRun_inside (sp : GoString) (hsp : sp.head? = some '/') (n : Nat) :
    ∀ (path : GoString) (st : CleanState), path.length ≤ n →
      ['.', '.'] ∉ pathElements path →
      (st.out = sp ∨ (sp ++ ['/']) <+: st.out ∨ (sp = ['/'] ∧ ['/'] <+: st.out)) →
      ((cleanRun true path st).out = sp ∨ (sp ++ ['/']) <+: (cleanRun true path st).out ∨
        (sp = ['/'] ∧ ['/'] <+: (cleanRun true path st).out)) := by
  induction n with
  | zero =>
    intro path st h _ hk
    have : path = [] := List.length_eq_zero.1 (by omega)
    subst this
    exact hk
  | succ n ih =>
    intro path st h hnd hk
    cases path with
    | nil => exact hk
    | cons c rest =>
      simp only [List.length_cons, Nat.add_le_add_iff_right] at h
      rw [cleanRun_cons]
      by_cases h1 : c = '/'
      · rw [if_pos h1]
        subst h1
        rw [pathElements_slash] at hnd
        exact ih rest st h (fun hx => hnd (List.mem_cons_of_mem _ hx)) hk
      · rw [if_neg h1]
        have htail : ['.', '.'] ∉ (pathElements rest).tail :=
          fun hx => hnd (mem_pathElements_of_tail c rest h1 _ hx)
        by_cases h2 : c = '.' ∧ (rest = [] ∨ rest.head? = some '/')
        · rw [if_pos h2]
          refine ih rest st h ?_ hk
          rcases h2.2 with rfl | hh
          · simp [pathElements]
          · cases rest with
            | nil => simp at hh
            | cons d t =>
              simp only [List.head?_cons, Option.some.injEq] at hh
              subst hh
              rw [pathElements_slash] at htail ⊢
              simpa using htail
        · rw [if_neg h2]
          by_cases h3 : c = '.' ∧ rest.head? = some '.' ∧
              (rest.tail = [] ∨ rest.tail.head? = some '/')
          · exfalso
            obtain ⟨hc, hh, ht⟩ := h3
            cases rest with
            | nil => simp at hh
            | cons d t =>
              simp only [List.head?_cons, Option.some.injEq] at hh
              subst hc hh
              exact hnd (dotdot_mem_pathElements t ht)
          · rw [if_neg h3]
            refine ih _ _ (le_trans (dropWhile_length_le rest) h) ?_ ?_
            · rw [pathElements_dropWhile]
              simpa using htail
            · have := inside_step sp st.out (c :: rest.takeWhile (fun c => c ≠ '/')) hsp hk
              simpa using this

theorem Clean_rooted (t : GoString) :
    Clean ('/' :: t) =
      if (cleanRun true t ⟨['/'], 1⟩).out.length = 0 then ['.']
      else (cleanRun true t ⟨['/'], 1⟩).out := by
  simp [Clean, cleanRun]

/-- Cleaning `sp + "/" + r`, for a rooted clean `sp` and an `r` with no `..`
element, gives a path inside `sp`. -/
theorem Clean_inside (sp r : GoString) (hroot : sp.head? = some '/') (hclean : Clean sp = sp)
    (hr : ['.', '.'] ∉ pathElements r) :
    Clean (sp ++ ['/'] ++ r) = sp ∨ (sp ++ ['/']) <+: Clean (sp ++ ['/'] ++ r) ∨
      (sp = ['/'] ∧ ['/'] <+: Clean (sp ++ ['/'] ++ r)) := by
  cases sp with
  | nil => simp at hroot
  | cons c t =>
    simp only [List.head?_cons, Option.some.injEq] at hroot
    subst hroot
    have hout : (cleanRun true t ⟨['/'], 1⟩).out = '/' :: t := by
      rw [Clean_rooted] at hclean
      split_ifs at hclean
      · simp at hclean
      · exact hclean
    have hfin := cleanRun_inside ('/' :: t) rfl (r.length + 1) ('/' :: r)
      (cleanRun true t ⟨['/'], 1⟩) (by simp)
      (by rw [pathElements_slash]; simpa using hr) (Or.inl hout)
    have hsplit : '/' :: t ++ ['/'] ++ r = '/' :: (t ++ '/' :: r) := by simp
    rw [hsplit, Clean_rooted, cleanRun_append_slash true t.length t r _ (le_refl _)]
    have hne : (cleanRun true ('/' :: r) (cleanRun true t ⟨['/'], 1⟩)).out.length ≠ 0 := by
      intro h0
      rw [List.length_eq_zero] at h0
      rw [h0] at hfin
      rcases hfin with h | h | ⟨_, h⟩
      · simp at h
      · simp at h
      · simp at h
    rw [if_neg hne]
    exact hfin

/-! ## Save-path containment (lines 59 and 102-120) -/

/-- C10, counterexample: uploading the local path `..`, whose traversal finds
`../x.txt`, to the absolute clean remote directory `/a/b` gives the unit the
`SavePath` `/a/x.txt`, which is neither `/a/b` nor below `/a/b/`. -/
theorem savePath_escapes :
    ("/a/b".toList).head? = some '/' ∧
    Clean "/a/b".toList = "/a/b".toList ∧
    "..".toList <+: "../x.txt".toList ∧
    (appended (RunUpload
        (unixEnv 1 (Except.ok 7) (fun p => Except.ok [p ++ "/x.txt".toList]) allSucceed)
        ["..".toList] "/a/b".toList none)).map (fun a => a.1.SavePath) = ["/a/x.txt".toList] ∧
    ¬ ("/a/x.txt".toList = "/a/b".toList ∨ ("/a/b".toList ++ ['/']) <+: "/a/x.txt".toList) := by
  refine ⟨by decide, by decide, by decide, by decide, by decide⟩

/-- A walked file of a local path whose traversal succeeded is one of the
walked pairs of the run. -/
theorem mem_walkedPairs (env : Env) (localPaths : List GoString) (p w : GoString)
    (ws : List GoString) (hp : p ∈ localPaths) (hws : env.WalkDir p [] = Except.ok ws)
    (hw : w ∈ ws) : (p, w) ∈ walkedPairs env localPaths := by
  induction localPaths with
  | nil => simp at hp
  | cons q qs ih =>
    simp only [walkedPairs, List.mem_append]
    rcases List.mem_cons.1 hp with rfl | hq
    · left
      rw [hws]
      exact List.mem_map.2 ⟨w, hw, rfl⟩
    · exact Or.inr (ih hq)

/-- The unit of every walked pair is appended to the run's executor. -/
theorem Append_mem_RunUpload (env : Env) (localPaths : List GoString) (savePath : GoString)
    (opt : Option UploadOptions) (db : Ref) (hdb : env.NewUploadingDatabase = Except.ok db)
    (pw : GoString × GoString) (hpw : pw ∈ walkedPairs env localPaths) :
    Event.Append env.heap
        (newUploadTaskUnit env (env.PathJoin savePath) (checkOpt env opt) (newShared env db)
          pw.1 pw.2) (checkOpt env opt).MaxRetry ∈
      RunUpload env localPaths savePath opt := by
  have happ : (newUploadTaskUnit env (env.PathJoin savePath) (checkOpt env opt)
      (newShared env db) pw.1 pw.2, (checkOpt env opt).MaxRetry) ∈
      appended (RunUpload env localPaths savePath opt) := by
    rw [appended_RunUpload, hdb]
    exact List.mem_map.2 ⟨pw, hpw, rfl⟩
  unfold appended at happ
  obtain ⟨e, he, hsome⟩ := List.mem_filterMap.1 happ
  cases e with
  | Append x unit maxRetry =>
    simp only [asAppend, Option.some.injEq, Prod.mk.injEq] at hsome
    obtain ⟨hu, hm⟩ := hsome
    subst hu hm
    obtain ⟨_, _, hx, _⟩ := mem_Append_RunUpload _ _ _ _ _ _ _ he
    rw [← hx]
    exact he
  | _ => simp [asAppend] at hsome

/-- C10, amended: for an absolute, already-clean remote `savePath` (the
variable after line 59), every local path `p` of the run and every walked
file `w` of `p` whose relative part `subSavePath` (the file minus the
`filepath.Dir(p)` prefix, line 116) has no `..` path element: the unit built
for `w` is appended to the executor, and its `SavePath` is `savePath` itself
or starts with `savePath` followed by `/` (under the root `/` it starts with
`/`).  The condition is on this one walked file; the other files of the run
do not matter. -/
theorem savePath_inside (env : Env) (localPaths : List GoString) (savePath : GoString)
    (opt : Option UploadOptions) (db : Ref) (p w : GoString) (ws : List GoString)
    (hdb : env.NewUploadingDatabase = Except.ok db)
    (hp : p ∈ localPaths) (hws : env.WalkDir p [] = Except.ok ws) (hw : w ∈ ws)
    (habs : (env.PathJoin savePath).head? = some '/')
    (hclean : Clean (env.PathJoin savePath) = env.PathJoin savePath)
    (hrel : ['.', '.'] ∉ pathElements (subSavePath env p w)) :
    Event.Append env.heap
        (newUploadTaskUnit env (env.PathJoin savePath) (checkOpt env opt) (newShared env db)
          p w) (checkOpt env opt).MaxRetry ∈
      RunUpload env localPaths savePath opt ∧
    ((newUploadTaskUnit env (env.PathJoin savePath) (checkOpt env opt) (newShared env db)
        p w).SavePath = env.PathJoin savePath ∨
      (env.PathJoin savePath ++ ['/']) <+:
        (newUploadTaskUnit env (env.PathJoin savePath) (checkOpt env opt) (newShared env db)
          p w).SavePath ∨
      (env.PathJoin savePath = ['/'] ∧
        ['/'] <+: (newUploadTaskUnit env (env.PathJoin savePath) (checkOpt env opt)
          (newShared env db) p w).SavePath)) :=
  ⟨Append_mem_RunUpload env localPaths savePath opt db hdb (p, w)
      (mem_walkedPairs env localPaths p w ws hp hws hw),
    Clean_inside _ _ habs hclean hrel⟩

/-- Witness for `savePath_inside`: in the upload of `..` and `dir` to `/up`
the files of `..` have a `..` element in their relative part, and still the
unit of `dir/x` is appended with the `SavePath` `/up/dir/x`, below `/up/`. -/
theorem savePath_inside_witness :
    (unixEnv 1 (Except.ok 7) walkTwo allSucceed).NewUploadingDatabase = Except.ok 7 ∧
    "dir".toList ∈ ["..".toList, "dir".toList] ∧
    (unixEnv 1 (Except.ok 7) walkTwo allSucceed).WalkDir "dir".toList [] =
      Except.ok ["dir/x".toList, "dir/y".toList] ∧
    "dir/x".toList ∈ ["dir/x".toList, "dir/y".toList] ∧
    ("/up".toList).head? = some '/' ∧
    Clean "/up".toList = "/up".toList ∧
    ['.', '.'] ∉ pathElements
      (subSavePath (unixEnv 1 (Except.ok 7) walkTwo allSucceed) "dir".toList "dir/x".toList) ∧
    ['.', '.'] ∈ pathElements
      (subSavePath (unixEnv 1 (Except.ok 7) walkTwo allSucceed) "..".toList "../x".toList) ∧
    (newUploadTaskUnit (unixEnv 1 (Except.ok 7) walkTwo allSucceed) "/up".toList
        (checkOpt (unixEnv 1 (Except.ok 7) walkTwo allSucceed) none)
        (newShared (unixEnv 1 (Except.ok 7) walkTwo allSucceed) 7) "dir".toList
        "dir/x".toList).SavePath = "/up/dir/x".toList ∧
    Event.Append 10
        (newUploadTaskUnit (unixEnv 1 (Except.ok 7) walkTwo allSucceed) "/up".toList
          (checkOpt (unixEnv 1 (Except.ok 7) walkTwo allSucceed) none)
          (newShared (unixEnv 1 (Except.ok 7) walkTwo allSucceed) 7) "dir".toList
          "dir/x".toList) 0 ∈
      RunUpload (unixEnv 1 (Except.ok 7) walkTwo allSucceed) ["..".toList, "dir".toList]
        "/up".toList none ∧
    ("/up".toList ++ ['/']) <+: "/up/dir/x".toList :=
  ⟨rfl, by decide, rfl, by decide, by decide, by decide, by decide, by decide, by decide,
    (savePath_inside (unixEnv 1 (Except.ok 7) walkTwo allSucceed)
      ["..".toList, "dir".toList] "/up".toList none 7 "dir".toList "dir/x".toList
      ["dir/x".toList, "dir/y".toList] rfl (by decide) rfl (by decide) (by decide)
      (by decide) (by decide)).1,
    ((savePath_inside (unixEnv 1 (Except.ok 7) walkTwo allSucceed)
      ["..".toList, "dir".toList] "/up".toList none 7 "dir".toList "dir/x".toList
      ["dir/x".toList, "dir/y".toList] rfl (by decide) rfl (by decide) (by decide)
      (by decide) (by decide)).2.resolve_left (by decide)).resolve_right (by decide)⟩

end Upload
